import Mathlib

/-!
Verification of the corpus-ingestion-and-vocabulary-assembly pipeline of the
bnosac/sentencepiece repository (`src/sentencepiece/src/trainer_interface.cc`)
and of the wordpiece tokenizer (`src/rcpp_wordpiece.cpp`).

Modelling conventions:
* A C++ `std::string` holding UTF-8 text is modelled at the code-point level
  as `Text := List Nat` (each element one Unicode code point; structural
  UTF-8 validity of the byte encoding corresponds to every code point being
  interchange-valid).  The wordpiece tokenizer, which slices strings at byte
  granularity, is instead modelled at the byte level (`BStr := List Nat`).
* C++ machine integers are modelled as `Int`/`Nat`; wrap-around is written
  explicitly (`% 2 ^ 32`, `% 2 ^ 64`) at the places where the C++ code can
  overflow and the overflow is reachable.
* `util::Status` returning functions become `Except Err _`; each distinct
  `CHECK_*_OR_RETURN` site gets its own `Err` constructor, mirroring the
  distinct diagnostic messages of the source.
* Floating-point values (`character_coverage`, `shrinking_factor`, scores,
  the coverage accumulator) are modelled exactly over `ℚ`.  Division by zero
  in `ℚ` yields `0`, which matches the C++ `NaN >= x` comparison being false
  in the one place (`all_chars_count == 0`) where it can occur.
* External collaborators that are declared out of scope by the spec
  (the normalizer, the meta-piece prefix matcher, the unicode-script table,
  the random stream of the reservoir sampler) are taken as function
  parameters.
-/

namespace SP

/-- A UTF-8 C++ string modelled as its sequence of Unicode code points. -/
abbrev Text := List Nat

/-- U+2581, the word-boundary ("whitespace") marker `kWSChar`. -/
def kWSChar : Nat := 0x2581

/-- U+2585, the reserved unknown-character marker `kUNKChar`. -/
def kUNKChar : Nat := 0x2585

/-- `kUNKStr`, the UTF-8 string holding exactly `kUNKChar`. -/
def kUNKStr : Text := [kUNKChar]

/-- U+0009 (tab), the meta-piece substitution boundary marker
`kUPPBoundaryChar`. -/
def kUPPBoundaryChar : Nat := 0x09

/-- The raw space code point U+0020. -/
def spaceChar : Nat := 0x20

/-- `TrainerSpec::ModelType`. -/
inductive ModelType
  | UNIGRAM
  | BPE
  | WORD
  | CHAR
deriving DecidableEq, Repr

/-- `ModelProto::SentencePiece::Type`. -/
inductive PieceType
  | NORMAL
  | UNKNOWN
  | CONTROL
  | USER_DEFINED
deriving DecidableEq, Repr

/-- The fields of `TrainerSpec` read by `trainer_interface.cc`.
(`model_prefix` is called `model_prefix_` here for lexical reasons only;
`mining_sentence_size`/`training_sentence_size` are omitted because the
source only emits deprecation warnings for them.) -/
structure TrainerSpec where
  model_prefix_ : Text
  input : List Text
  input_format : String
  vocab_size : Int
  model_type : ModelType
  use_all_vocab : Bool
  character_coverage : ℚ
  max_sentencepiece_length : Int
  num_sub_iterations : Int
  num_threads : Int
  self_test_sample_size : Int
  shrinking_factor : ℚ
  max_sentence_length : Int
  input_sentence_size : Int
  shuffle_input_sentence : Bool
  hard_vocab_limit : Bool
  unk_id : Int
  bos_id : Int
  eos_id : Int
  pad_id : Int
  unk_piece : Text
  bos_piece : Text
  eos_piece : Text
  pad_piece : Text
  control_symbols : List Text
  user_defined_symbols : List Text
  treat_whitespace_as_suffix : Bool
  split_by_whitespace : Bool
  split_by_number : Bool
  split_by_unicode_script : Bool
deriving DecidableEq, Repr

/-- One error value per distinct `CHECK_*_OR_RETURN` site (the C++ code
returns a generic status whose message identifies the failing check). -/
inductive Err
  | badModelPrefixField
  | noInput
  | badVocabSize
  | badUseAllVocab
  | badCoverage
  | badMaxPieceLen
  | badSubIter
  | badThreads
  | badSelfTest
  | badShrink
  | badMaxSentLen
  | badInputSentSize
  | emptyUnkPiece
  | emptyBosPiece
  | emptyEosPiece
  | emptyPadPiece
  | badFormat
  | tsvFieldCount
  | tsvBadFreq
  | emptyCorpus
  | spaceAfterNormalize
  | spaceInCount
  | spaceRequired
  | unkInRequired
  | vocabTooSmall
  | reservedIdConflict
  | unkNotDefined
  | metaDup
  | metaUnkSymbol
  | pieceIdMismatch
  | pieceIsNormal
  | pieceNotValid
  | pieceEmpty
  | pieceDup
  | fidMismatch
  | sizeNotLe
  | dupNotLe
  | sizeNotEq
  | dupNotEq
deriving DecidableEq, Repr

instance {e a : Type} [DecidableEq e] [DecidableEq a] : DecidableEq (Except e a) := fun x y =>
  match x, y with
  | .error e1, .error e2 =>
    if h : e1 = e2 then .isTrue (h ▸ rfl) else .isFalse (fun hc => h (Except.error.inj hc))
  | .error _, .ok _ => .isFalse (fun hc => Except.noConfusion hc)
  | .ok _, .error _ => .isFalse (fun hc => Except.noConfusion hc)
  | .ok x1, .ok y1 =>
    if h : x1 = y1 then .isTrue (h ▸ rfl) else .isFalse (fun hc => h (Except.ok.inj hc))

/-- `VerifySpec` (trainer_interface.cc lines 46-88): the configuration
checks, in source order; the first failing check is reported. -/
def verifySpec (ts : TrainerSpec) : Except Err Unit :=
  if ts.model_prefix_ = [] then .error .badModelPrefixField
  else if ¬ 0 < ts.input.length then .error .noInput
  else if ¬ 0 < ts.vocab_size then .error .badVocabSize
  else if (ts.model_type = .UNIGRAM ∨ ts.model_type = .BPE) ∧ ts.use_all_vocab then
    .error .badUseAllVocab
  else if ¬ ((98 / 100 : ℚ) ≤ ts.character_coverage ∧ ts.character_coverage ≤ 1) then
    .error .badCoverage
  else if ¬ (1 ≤ ts.max_sentencepiece_length ∧ ts.max_sentencepiece_length ≤ 512) then
    .error .badMaxPieceLen
  else if ¬ (1 ≤ ts.num_sub_iterations ∧ ts.num_sub_iterations ≤ 10) then
    .error .badSubIter
  else if ¬ (1 ≤ ts.num_threads ∧ ts.num_threads ≤ 128) then
    .error .badThreads
  else if ¬ (0 ≤ ts.self_test_sample_size ∧ ts.self_test_sample_size ≤ 1000) then
    .error .badSelfTest
  else if ¬ ((1 / 2 : ℚ) ≤ ts.shrinking_factor ∧ ts.shrinking_factor ≤ (95 / 100 : ℚ)) then
    .error .badShrink
  else if ¬ (10 ≤ ts.max_sentence_length ∧ ts.max_sentence_length ≤ 1073741824) then
    .error .badMaxSentLen
  else if ¬ (ts.input_sentence_size ≤ 0 ∨ 100 < ts.input_sentence_size) then
    .error .badInputSentSize
  else if ts.unk_piece = [] then .error .emptyUnkPiece
  else if ts.bos_piece = [] then .error .emptyBosPiece
  else if ts.eos_piece = [] then .error .emptyEosPiece
  else if ts.pad_piece = [] then .error .emptyPadPiece
  else .ok ()

/-- The acceptance condition exactly as claim C8 words it (the claimed
if-and-only-if characterization of `VerifySpec`). -/
def claimedVerify (ts : TrainerSpec) : Prop :=
  ts.model_prefix_ ≠ [] ∧
  0 < ts.input.length ∧
  0 < ts.vocab_size ∧
  ((ts.model_type = .UNIGRAM ∨ ts.model_type = .BPE) → ¬ ts.use_all_vocab = true) ∧
  (98 / 100 : ℚ) ≤ ts.character_coverage ∧ ts.character_coverage ≤ 1 ∧
  1 ≤ ts.max_sentencepiece_length ∧ ts.max_sentencepiece_length ≤ 512 ∧
  1 ≤ ts.num_threads ∧ ts.num_threads ≤ 128 ∧
  0 ≤ ts.self_test_sample_size ∧ ts.self_test_sample_size ≤ 1000 ∧
  10 ≤ ts.max_sentence_length ∧ ts.max_sentence_length ≤ 1073741824 ∧
  ts.unk_piece ≠ [] ∧ ts.bos_piece ≠ [] ∧ ts.eos_piece ≠ [] ∧ ts.pad_piece ≠ []

/-- The three range checks `VerifySpec` performs that claim C8 does not
mention: `num_sub_iterations` in [1,10], `shrinking_factor` in [0.5,0.95],
and `input_sentence_size` either non-positive or greater than 100. -/
def verifyExtraChecks (ts : TrainerSpec) : Prop :=
  (1 ≤ ts.num_sub_iterations ∧ ts.num_sub_iterations ≤ 10) ∧
  ((1 / 2 : ℚ) ≤ ts.shrinking_factor ∧ ts.shrinking_factor ≤ (95 / 100 : ℚ)) ∧
  (ts.input_sentence_size ≤ 0 ∨ 100 < ts.input_sentence_size)

/-- A baseline configuration used for concrete runs: a valid UNIGRAM spec
with reserved pieces `<unk>`, `<s>`, `</s>`, `<pad>` (pad disabled). -/
def baseSpec : TrainerSpec where
  model_prefix_ := [0x6D]
  input := [[0x63]]
  input_format := ""
  vocab_size := 8000
  model_type := .UNIGRAM
  use_all_vocab := false
  character_coverage := 9995 / 10000
  max_sentencepiece_length := 16
  num_sub_iterations := 2
  num_threads := 16
  self_test_sample_size := 0
  shrinking_factor := 3 / 4
  max_sentence_length := 4192
  input_sentence_size := 0
  shuffle_input_sentence := true
  hard_vocab_limit := true
  unk_id := 0
  bos_id := 1
  eos_id := 2
  pad_id := -1
  unk_piece := [0x3C, 0x75, 0x6E, 0x6B, 0x3E]
  bos_piece := [0x3C, 0x73, 0x3E]
  eos_piece := [0x3C, 0x2F, 0x73, 0x3E]
  pad_piece := [0x3C, 0x70, 0x61, 0x64, 0x3E]
  control_symbols := []
  user_defined_symbols := []
  treat_whitespace_as_suffix := false
  split_by_whitespace := true
  split_by_number := true
  split_by_unicode_script := true

/-- A configuration satisfying every condition listed by claim C8, yet with
`num_sub_iterations = 0`, which `VerifySpec` rejects. -/
def c8spec : TrainerSpec := { baseSpec with num_sub_iterations := 0 }

/-- One link of a `CHECK_OR_RETURN` chain: the chain succeeds iff the
guarding condition is false and the rest of the chain succeeds. -/
theorem check_chain_step {c : Prop} [Decidable c] {e : Err} {rest : Except Err Unit} :
    (if c then Except.error e else rest) = .ok () ↔ ¬ c ∧ rest = .ok () := by
  split_ifs with h <;> simp [h]

/-- Claim C8 (counterexample): `c8spec` satisfies every condition claim C8
lists, but `VerifySpec` rejects it (it checks `num_sub_iterations ∈ [1,10]`,
which the claim's list omits), so the claimed "if and only if" fails. -/
theorem verify_spec_iff_counterexample :
    claimedVerify c8spec ∧ verifySpec c8spec = .error .badSubIter := by
  constructor
  · unfold claimedVerify c8spec baseSpec
    refine ⟨by decide, by decide, by decide, by decide, by norm_num, by norm_num,
      by decide, by decide, by decide, by decide, by decide, by decide,
      by decide, by decide, by decide, by decide, by decide, by decide⟩
  · unfold verifySpec c8spec baseSpec
    norm_num

/-- Claim C8 (amended): `VerifySpec` accepts a configuration iff all the
conditions listed in the claim hold **and** additionally
`num_sub_iterations ∈ [1,10]`, `shrinking_factor ∈ [0.5,0.95]` and
`input_sentence_size ≤ 0 ∨ input_sentence_size > 100`; any violation is
reported as a configuration error naming the offending field. -/
theorem verify_spec_characterization (ts : TrainerSpec) :
    verifySpec ts = .ok () ↔ claimedVerify ts ∧ verifyExtraChecks ts := by
  unfold verifySpec
  rw [check_chain_step, check_chain_step, check_chain_step, check_chain_step,
    check_chain_step, check_chain_step, check_chain_step, check_chain_step,
    check_chain_step, check_chain_step, check_chain_step, check_chain_step,
    check_chain_step, check_chain_step, check_chain_step, check_chain_step]
  simp only [not_not, and_true]
  unfold claimedVerify verifyExtraChecks
  constructor
  · rintro ⟨hm, hin, hv, hua, hcov, hmp, hsub, hth, hst, hshr, hms, his, hu, hb, he2, hp⟩
    exact ⟨⟨hm, hin, hv, fun hmt hu2 => hua ⟨hmt, hu2⟩, hcov.1, hcov.2, hmp.1, hmp.2,
      hth.1, hth.2, hst.1, hst.2, hms.1, hms.2, hu, hb, he2, hp⟩, ⟨hsub, hshr, his⟩⟩
  · rintro ⟨⟨hm, hin, hv, hua, hcov1, hcov2, hmp1, hmp2, hth1, hth2, hst1, hst2,
      hms1, hms2, hu, hb, he2, hp⟩, hsub, hshr, his⟩
    exact ⟨hm, hin, hv, fun hc => hua hc.1 hc.2, ⟨hcov1, hcov2⟩, ⟨hmp1, hmp2⟩, hsub,
      ⟨hth1, hth2⟩, ⟨hst1, hst2⟩, hshr, ⟨hms1, hms2⟩, his, hu, hb, he2, hp⟩

/-- Witness for `verify_spec_characterization` at the concrete `baseSpec`. -/
theorem verify_spec_characterization_witness :
    verifySpec baseSpec = .ok () ↔ claimedVerify baseSpec ∧ verifyExtraChecks baseSpec :=
  verify_spec_characterization baseSpec

/-! ## MetaPieceRegistry: `TrainerInterface::InitMetaPieces` -/

/-- A registered meta piece: its text and its category. -/
abbrev MetaPc := Text × PieceType

/-- `std::map<int, std::pair<std::string, Type>> meta_pieces_`, as an
association list (only non-negative ids are ever inserted). -/
abbrev MetaMap := List (Nat × MetaPc)

/-- `meta_pieces_.find(i)`. -/
def mfind : MetaMap → Nat → Option MetaPc
  | [], _ => none
  | p :: m, i => if p.1 = i then some p.2 else mfind m i

theorem mfind_nil (i : Nat) : mfind [] i = none := rfl

theorem mfind_cons (p : Nat × MetaPc) (m : MetaMap) (i : Nat) :
    mfind (p :: m) i = if p.1 = i then some p.2 else mfind m i := rfl

/-- The key set of the map. -/
def mkeys (m : MetaMap) : List Nat := m.map Prod.fst

/-- `meta_pieces_[i].second = t`: update the category of the entry at `i`
in place; if `i` is absent, `operator[]` default-constructs the entry
(empty text) and the assignment then sets its category. -/
def msetType (m : MetaMap) (i : Nat) (t : PieceType) : MetaMap :=
  if (mfind m i).isSome then
    m.map fun p => if p.1 = i then (p.1, (p.2.1, t)) else p
  else m ++ [(i, ([], t))]

/-- An exclusive upper bound on the keys of `m`. -/
def keyBound (m : MetaMap) : Nat := m.foldr (fun p b => max (p.1 + 1) b) 0

theorem keyBound_cons (p : Nat × MetaPc) (m : MetaMap) :
    keyBound (p :: m) = max (p.1 + 1) (keyBound m) := rfl

theorem lt_keyBound_of_isSome {m : MetaMap} {i : Nat} (h : (mfind m i).isSome) :
    i < keyBound m := by
  induction m with
  | nil => simp [mfind_nil] at h
  | cons p m ih =>
    rw [mfind_cons] at h
    rw [keyBound_cons]
    by_cases hk : p.1 = i
    · omega
    · rw [if_neg hk] at h
      have := ih h
      omega

/-- The scan of `while (meta_pieces_.find(id) != meta_pieces_.end()) ++id;`
with an explicit iteration bound (the bound is only a structural-recursion
device; `nextFree` always supplies a sufficient one). -/
def nextFreeAux (m : MetaMap) : Nat → Nat → Nat
  | 0, i => i
  | fuel + 1, i => if (mfind m i).isSome then nextFreeAux m fuel (i + 1) else i

/-- `while (meta_pieces_.find(id) != meta_pieces_.end()) ++id;` — the first
index at or above `i` that is not yet a key of `m`. -/
def nextFree (m : MetaMap) (i : Nat) : Nat := nextFreeAux m (keyBound m + 1 - i) i

theorem mfind_nextFreeAux (m : MetaMap) :
    ∀ (fuel i : Nat), keyBound m + 1 - i ≤ fuel → mfind m (nextFreeAux m fuel i) = none := by
  intro fuel
  induction fuel with
  | zero =>
    intro i hf
    unfold nextFreeAux
    cases h : mfind m i with
    | none => rfl
    | some v =>
      have := lt_keyBound_of_isSome (m := m) (i := i) (by rw [h]; rfl)
      omega
  | succ fuel ih =>
    intro i hf
    unfold nextFreeAux
    split
    · rename_i h
      have := lt_keyBound_of_isSome h
      exact ih (i + 1) (by omega)
    · rename_i h
      exact Option.not_isSome_iff_eq_none.mp h

theorem mfind_nextFree (m : MetaMap) (i : Nat) : mfind m (nextFree m i) = none :=
  mfind_nextFreeAux m _ i (Nat.le_refl _)

theorem nextFreeAux_ge (m : MetaMap) :
    ∀ (fuel i : Nat), i ≤ nextFreeAux m fuel i := by
  intro fuel
  induction fuel with
  | zero =>
    intro i
    exact Nat.le_refl i
  | succ fuel ih =>
    intro i
    unfold nextFreeAux
    split
    · have := ih (i + 1)
      omega
    · exact Nat.le_refl i

theorem nextFree_ge (m : MetaMap) (i : Nat) : i ≤ nextFree m i :=
  nextFreeAux_ge m _ i

theorem nextFreeAux_min (m : MetaMap) :
    ∀ (fuel i : Nat), ∀ j, i ≤ j → j < nextFreeAux m fuel i → (mfind m j).isSome := by
  intro fuel
  induction fuel with
  | zero =>
    intro i j hij hj
    unfold nextFreeAux at hj
    omega
  | succ fuel ih =>
    intro i j hij hj
    unfold nextFreeAux at hj
    split at hj
    · rename_i h
      rcases Nat.eq_or_lt_of_le hij with rfl | hlt
      · exact h
      · exact ih (i + 1) j hlt hj
    · omega

theorem nextFree_min (m : MetaMap) (i : Nat) :
    ∀ j, i ≤ j → j < nextFree m i → (mfind m j).isSome :=
  nextFreeAux_min m _ i

theorem mfind_append_left {m₁ : MetaMap} (m₂ : MetaMap) {i : Nat}
    (h : (mfind m₁ i).isSome) : mfind (m₁ ++ m₂) i = mfind m₁ i := by
  induction m₁ with
  | nil => simp [mfind_nil] at h
  | cons p m ih =>
    rw [mfind_cons] at h
    rw [List.cons_append, mfind_cons, mfind_cons]
    by_cases hk : p.1 = i
    · rw [if_pos hk, if_pos hk]
    · rw [if_neg hk] at h
      rw [if_neg hk, if_neg hk]
      exact ih h

theorem mfind_append_right {m₁ : MetaMap} (m₂ : MetaMap) {i : Nat}
    (h : mfind m₁ i = none) : mfind (m₁ ++ m₂) i = mfind m₂ i := by
  induction m₁ with
  | nil => simp
  | cons p m ih =>
    rw [mfind_cons] at h
    rw [List.cons_append, mfind_cons]
    by_cases hk : p.1 = i
    · rw [if_pos hk] at h
      exact absurd h (by simp)
    · rw [if_neg hk] at h
      rw [if_neg hk]
      exact ih h

theorem mfind_eq_none_iff {m : MetaMap} {i : Nat} :
    mfind m i = none ↔ i ∉ mkeys m := by
  induction m with
  | nil => simp [mfind_nil, mkeys]
  | cons p m ih =>
    rw [mfind_cons]
    unfold mkeys
    rw [List.map_cons]
    by_cases hk : p.1 = i
    · simp [hk]
    · rw [if_neg hk]
      simpa [mkeys, Ne.symm hk] using ih

/-- Phase (a) state: the map and the `has_unk` flag. -/
structure ResState where
  map : MetaMap
  has_unk : Bool
deriving DecidableEq, Repr

/-- The `insert_id` lambda of `InitMetaPieces` (lines 556-567): negative ids
are silently skipped; out-of-range ids, occupied ids, and a second id
claiming the UNKNOWN text fail; otherwise the piece is inserted with
category UNKNOWN (when its text is the UNKNOWN text) or CONTROL. -/
def insert_id (ts : TrainerSpec) (id : Int) (w : Text) (st : ResState) : Except Err ResState :=
  if id < 0 then .ok st
  else if ts.vocab_size ≤ id ∨ (mfind st.map id.toNat).isSome ∨
      (st.has_unk ∧ w = ts.unk_piece) then .error .reservedIdConflict
  else .ok ⟨st.map ++ [(id.toNat, (w, if w = ts.unk_piece then .UNKNOWN else .CONTROL))],
    st.has_unk || decide (w = ts.unk_piece)⟩

/-- Phase (a) of `InitMetaPieces` (lines 569-574): insert the four reserved
symbols, then require that the UNKNOWN piece ended up registered. -/
def initReserved (ts : TrainerSpec) : Except Err ResState :=
  match insert_id ts ts.unk_id ts.unk_piece ⟨[], false⟩ with
  | .error e => .error e
  | .ok st1 =>
    match insert_id ts ts.bos_id ts.bos_piece st1 with
    | .error e => .error e
    | .ok st2 =>
      match insert_id ts ts.eos_id ts.eos_piece st2 with
      | .error e => .error e
      | .ok st3 =>
        match insert_id ts ts.pad_id ts.pad_piece st3 with
        | .error e => .error e
        | .ok st4 => if st4.has_unk then .ok st4 else .error .unkNotDefined

/-- Phase (b) state: the map, the `dup` set of already-processed symbol
texts, and the running allocation counter `id`. -/
structure SymState where
  map : MetaMap
  dup : List Text
  id : Nat
deriving DecidableEq, Repr

/-- The `insert_meta_symbol` lambda of `InitMetaPieces` (lines 579-605):
reject duplicates and the UNKNOWN text; alias onto a reserved begin/end/pad
entry when the text matches and that reserved id is non-negative; otherwise
allocate the smallest identifier not yet present. -/
def insert_meta_symbol (ts : TrainerSpec) (w : Text) (t : PieceType) (st : SymState) :
    Except Err SymState :=
  if w ∈ st.dup then .error .metaDup
  else if w = ts.unk_piece then .error .metaUnkSymbol
  else if w = ts.bos_piece ∧ 0 ≤ ts.bos_id then
    .ok ⟨msetType st.map ts.bos_id.toNat t, w :: st.dup, st.id⟩
  else if w = ts.eos_piece ∧ 0 ≤ ts.eos_id then
    .ok ⟨msetType st.map ts.eos_id.toNat t, w :: st.dup, st.id⟩
  else if w = ts.pad_piece ∧ 0 ≤ ts.pad_id then
    .ok ⟨msetType st.map ts.pad_id.toNat t, w :: st.dup, st.id⟩
  else
    .ok ⟨st.map ++ [(nextFree st.map st.id, (w, t))], w :: st.dup, nextFree st.map st.id⟩

/-- Processing a list of control or user-defined symbols in order. -/
def insertSymbols (ts : TrainerSpec) (t : PieceType) :
    List Text → SymState → Except Err SymState
  | [], st => .ok st
  | w :: ws, st =>
    match insert_meta_symbol ts w t st with
    | .error e => .error e
    | .ok st2 => insertSymbols ts t ws st2

/-- `TrainerInterface::InitMetaPieces` (lines 552-617): phase (a) for the
four reserved pieces, then the control symbols, then the user-defined
symbols (`dup` and the allocation counter start fresh after phase (a)). -/
def initMetaPieces (ts : TrainerSpec) : Except Err MetaMap :=
  match initReserved ts with
  | .error e => .error e
  | .ok r =>
    match insertSymbols ts .CONTROL ts.control_symbols ⟨r.map, [], 0⟩ with
    | .error e => .error e
    | .ok st1 =>
      match insertSymbols ts .USER_DEFINED ts.user_defined_symbols st1 with
      | .error e => .error e
      | .ok st2 => .ok st2.map

/-- Number of entries whose category is UNKNOWN. -/
def countUNK (m : MetaMap) : Nat := m.countP fun p => decide (p.2.2 = PieceType.UNKNOWN)

theorem mfind_msetType {m : MetaMap} {i : Nat} (t : PieceType)
    (h : (mfind m i).isSome) (j : Nat) :
    mfind (msetType m i t) j =
      if j = i then (mfind m i).map (fun v => (v.1, t)) else mfind m j := by
  unfold msetType
  rw [if_pos h]
  clear h
  induction m with
  | nil => by_cases hj : j = i <;> simp [mfind_nil, hj]
  | cons p m ih =>
    rw [List.map_cons, mfind_cons, mfind_cons]
    by_cases hj : j = i <;> by_cases hp : p.1 = i <;> by_cases hpj : p.1 = j <;>
      simp_all [ih, mfind_cons]

theorem mkeys_msetType {m : MetaMap} {i : Nat} (t : PieceType)
    (h : (mfind m i).isSome) :
    mkeys (msetType m i t) = mkeys m := by
  unfold msetType
  rw [if_pos h]
  unfold mkeys
  rw [List.map_map]
  congr 1
  funext p
  by_cases hp : p.1 = i <;> simp [Function.comp, hp]

theorem mfind_append_singleton_self {m : MetaMap} {k : Nat} (v : MetaPc)
    (h : mfind m k = none) : mfind (m ++ [(k, v)]) k = some v := by
  rw [mfind_append_right _ h, mfind_cons]
  simp

theorem mfind_append_singleton_other {m : MetaMap} {k : Nat} (v : MetaPc)
    {j : Nat} (h : j ≠ k) : mfind (m ++ [(k, v)]) j = mfind m j := by
  cases hm : mfind m j with
  | some u => rw [mfind_append_left _ (by rw [hm]; rfl), hm]
  | none =>
    rw [mfind_append_right _ hm, mfind_cons, mfind_nil]
    simp [hm, Ne.symm h]

/-- Invariant of the phase (b) state: every identifier below the running
counter is occupied, the keys are distinct, and each reserved begin/end/pad
symbol with a non-negative configured id is registered at it with its own
text.  `InitMetaPieces` establishes this before the first
`insert_meta_symbol` call. -/
def C4Inv (ts : TrainerSpec) (st : SymState) : Prop :=
  (∀ j, j < st.id → (mfind st.map j).isSome = true) ∧
  (mkeys st.map).Nodup ∧
  (0 ≤ ts.bos_id → (mfind st.map ts.bos_id.toNat).map Prod.fst = some ts.bos_piece) ∧
  (0 ≤ ts.eos_id → (mfind st.map ts.eos_id.toNat).map Prod.fst = some ts.eos_piece) ∧
  (0 ≤ ts.pad_id → (mfind st.map ts.pad_id.toNat).map Prod.fst = some ts.pad_piece)

theorem mfind_msetType_map_fst {m : MetaMap} {i : Nat} (t : PieceType)
    (h : (mfind m i).isSome) (j : Nat) :
    (mfind (msetType m i t) j).map Prod.fst = (mfind m j).map Prod.fst := by
  rw [mfind_msetType t h j]
  by_cases hj : j = i
  · subst hj
    cases mfind m j <;> simp
  · rw [if_neg hj]

theorem mfind_msetType_isSome {m : MetaMap} {i : Nat} (t : PieceType)
    (h : (mfind m i).isSome) (j : Nat) :
    (mfind (msetType m i t) j).isSome = (mfind m j).isSome := by
  rw [mfind_msetType t h j]
  by_cases hj : j = i
  · subst hj
    cases mfind m j <;> simp
  · rw [if_neg hj]

theorem mkeys_append (m : MetaMap) (p : Nat × MetaPc) :
    mkeys (m ++ [p]) = mkeys m ++ [p.1] := by
  unfold mkeys
  rw [List.map_append]
  rfl

theorem isSome_of_map_fst_eq_some {o : Option MetaPc} {w : Text}
    (h : o.map Prod.fst = some w) : o.isSome := by
  cases o <;> simp_all

/-- Alias update: `C4Inv` is preserved when only the category of an
existing entry is rewritten. -/
theorem c4inv_msetType (ts : TrainerSpec) (st : SymState) (rid : Nat)
    (t : PieceType) (d : List Text) (hsome : (mfind st.map rid).isSome)
    (hinv : C4Inv ts st) :
    C4Inv ts ⟨msetType st.map rid t, d, st.id⟩ := by
  obtain ⟨hbelow, hnodup, hbos, heos, hpad⟩ := hinv
  refine ⟨?_, ?_, ?_, ?_, ?_⟩
  · intro j hj
    rw [mfind_msetType_isSome t hsome j]
    exact hbelow j hj
  · rw [mkeys_msetType t hsome]
    exact hnodup
  · intro hge
    rw [mfind_msetType_map_fst t hsome]
    exact hbos hge
  · intro hge
    rw [mfind_msetType_map_fst t hsome]
    exact heos hge
  · intro hge
    rw [mfind_msetType_map_fst t hsome]
    exact hpad hge

/-- Fresh allocation: `C4Inv` is preserved when a fresh smallest-unused
identifier is appended. -/
theorem c4inv_alloc (ts : TrainerSpec) (st : SymState) (w : Text)
    (t : PieceType) (d : List Text) (hinv : C4Inv ts st) :
    C4Inv ts ⟨st.map ++ [(nextFree st.map st.id, (w, t))], d, nextFree st.map st.id⟩ := by
  obtain ⟨hbelow, hnodup, hbos, heos, hpad⟩ := hinv
  have hfree : mfind st.map (nextFree st.map st.id) = none := mfind_nextFree _ _
  refine ⟨?_, ?_, ?_, ?_, ?_⟩
  · intro j hj
    have hsome : (mfind st.map j).isSome = true := by
      by_cases hlo : j < st.id
      · exact hbelow j hlo
      · exact nextFree_min st.map st.id j (by omega) hj
    rw [mfind_append_left _ hsome]
    exact hsome
  · rw [mkeys_append]
    rw [List.nodup_append]
    refine ⟨hnodup, List.nodup_singleton _, ?_⟩
    intro a ha hb
    rw [List.mem_singleton] at hb
    subst hb
    exact (mfind_eq_none_iff.mp hfree) ha
  · intro hge
    have := hbos hge
    rw [mfind_append_left _ (isSome_of_map_fst_eq_some this)]
    exact this
  · intro hge
    have := heos hge
    rw [mfind_append_left _ (isSome_of_map_fst_eq_some this)]
    exact this
  · intro hge
    have := hpad hge
    rw [mfind_append_left _ (isSome_of_map_fst_eq_some this)]
    exact this

/-- The conclusions of the alias rule for one reserved symbol: no new
identifier (key set unchanged), the aliased entry keeps its text and gets
the new category, and every other entry is untouched. -/
theorem alias_facts (m : MetaMap) (rid : Nat) (piece : Text) (t : PieceType)
    (htext : (mfind m rid).map Prod.fst = some piece) :
    mkeys (msetType m rid t) = mkeys m ∧
    mfind (msetType m rid t) rid = some (piece, t) ∧
    (∀ j, j ≠ rid → mfind (msetType m rid t) j = mfind m j) := by
  have hsome : (mfind m rid).isSome := isSome_of_map_fst_eq_some htext
  refine ⟨mkeys_msetType t hsome, ?_, ?_⟩
  · rw [mfind_msetType t hsome rid, if_pos rfl]
    cases ho : mfind m rid with
    | none => rw [ho] at htext; exact absurd htext (by simp)
    | some v =>
      rw [ho] at htext
      have hv : v.1 = piece := by
        simpa using htext
      simp [hv]
  · intro j hj
    rw [mfind_msetType t hsome j, if_neg hj]

/-- Claim C4: one `insert_meta_symbol` step on any state reachable by
`InitMetaPieces` (characterized by `C4Inv`): it fails exactly on a text
already processed (`dup`) or on the UNKNOWN text; a text equal to the
begin/end/pad reserved text whose reserved id is non-negative (first match
in that order) only re-categorizes the already-registered entry — no new
id is allocated; every other accepted symbol is stored at the smallest
identifier not yet present in the registry.  `insertSymbols` applies this
step to each control symbol and then each user-defined symbol in
configuration order. -/
theorem meta_symbol_step_characterization (ts : TrainerSpec) (st : SymState)
    (w : Text) (t : PieceType) (hinv : C4Inv ts st) :
    ((∃ e, insert_meta_symbol ts w t st = .error e) ↔ (w ∈ st.dup ∨ w = ts.unk_piece)) ∧
    (∀ st2, insert_meta_symbol ts w t st = .ok st2 →
      C4Inv ts st2 ∧
      (w = ts.bos_piece ∧ 0 ≤ ts.bos_id →
        mkeys st2.map = mkeys st.map ∧
        mfind st2.map ts.bos_id.toNat = some (ts.bos_piece, t) ∧
        (∀ j, j ≠ ts.bos_id.toNat → mfind st2.map j = mfind st.map j)) ∧
      (¬ (w = ts.bos_piece ∧ 0 ≤ ts.bos_id) → w = ts.eos_piece ∧ 0 ≤ ts.eos_id →
        mkeys st2.map = mkeys st.map ∧
        mfind st2.map ts.eos_id.toNat = some (ts.eos_piece, t) ∧
        (∀ j, j ≠ ts.eos_id.toNat → mfind st2.map j = mfind st.map j)) ∧
      (¬ (w = ts.bos_piece ∧ 0 ≤ ts.bos_id) → ¬ (w = ts.eos_piece ∧ 0 ≤ ts.eos_id) →
        w = ts.pad_piece ∧ 0 ≤ ts.pad_id →
        mkeys st2.map = mkeys st.map ∧
        mfind st2.map ts.pad_id.toNat = some (ts.pad_piece, t) ∧
        (∀ j, j ≠ ts.pad_id.toNat → mfind st2.map j = mfind st.map j)) ∧
      (¬ (w = ts.bos_piece ∧ 0 ≤ ts.bos_id) → ¬ (w = ts.eos_piece ∧ 0 ≤ ts.eos_id) →
        ¬ (w = ts.pad_piece ∧ 0 ≤ ts.pad_id) →
        ∃ k, mfind st.map k = none ∧ (∀ j, j < k → (mfind st.map j).isSome = true) ∧
          st2.map = st.map ++ [(k, (w, t))])) := by
  unfold insert_meta_symbol
  by_cases h1 : w ∈ st.dup
  · rw [if_pos h1]
    refine ⟨⟨fun _ => Or.inl h1, fun _ => ⟨_, rfl⟩⟩, ?_⟩
    intro st2 h
    exact absurd h (by simp)
  · rw [if_neg h1]
    by_cases h2 : w = ts.unk_piece
    · rw [if_pos h2]
      refine ⟨⟨fun _ => Or.inr h2, fun _ => ⟨_, rfl⟩⟩, ?_⟩
      intro st2 h
      exact absurd h (by simp)
    · rw [if_neg h2]
      by_cases h3 : w = ts.bos_piece ∧ 0 ≤ ts.bos_id
      · rw [if_pos h3]
        refine ⟨by simp [h1, h2], ?_⟩
        intro st2 hok
        injection hok with hst2
        subst hst2
        have htext := hinv.2.2.1 h3.2
        have hsome := isSome_of_map_fst_eq_some htext
        refine ⟨c4inv_msetType ts st _ t _ hsome hinv, ?_, ?_, ?_, ?_⟩
        · intro _
          have := alias_facts st.map ts.bos_id.toNat ts.bos_piece t htext
          exact this
        · intro hno _
          exact absurd h3 hno
        · intro hno _ _
          exact absurd h3 hno
        · intro hno _ _
          exact absurd h3 hno
      · rw [if_neg h3]
        by_cases h4 : w = ts.eos_piece ∧ 0 ≤ ts.eos_id
        · rw [if_pos h4]
          refine ⟨by simp [h1, h2], ?_⟩
          intro st2 hok
          injection hok with hst2
          subst hst2
          have htext := hinv.2.2.2.1 h4.2
          have hsome := isSome_of_map_fst_eq_some htext
          refine ⟨c4inv_msetType ts st _ t _ hsome hinv, ?_, ?_, ?_, ?_⟩
          · intro hc
            exact absurd hc h3
          · intro _ _
            exact alias_facts st.map ts.eos_id.toNat ts.eos_piece t htext
          · intro _ hno _
            exact absurd h4 hno
          · intro _ hno _
            exact absurd h4 hno
        · rw [if_neg h4]
          by_cases h5 : w = ts.pad_piece ∧ 0 ≤ ts.pad_id
          · rw [if_pos h5]
            refine ⟨by simp [h1, h2], ?_⟩
            intro st2 hok
            injection hok with hst2
            subst hst2
            have htext := hinv.2.2.2.2 h5.2
            have hsome := isSome_of_map_fst_eq_some htext
            refine ⟨c4inv_msetType ts st _ t _ hsome hinv, ?_, ?_, ?_, ?_⟩
            · intro hc
              exact absurd hc h3
            · intro _ hc
              exact absurd hc h4
            · intro _ _ _
              exact alias_facts st.map ts.pad_id.toNat ts.pad_piece t htext
            · intro _ _ hno
              exact absurd h5 hno
          · rw [if_neg h5]
            refine ⟨by simp [h1, h2], ?_⟩
            intro st2 hok
            injection hok with hst2
            subst hst2
            refine ⟨c4inv_alloc ts st w t _ hinv, ?_, ?_, ?_, ?_⟩
            · intro hc
              exact absurd hc h3
            · intro _ hc
              exact absurd hc h4
            · intro _ _ hc
              exact absurd hc h5
            · intro _ _ _
              refine ⟨nextFree st.map st.id, mfind_nextFree _ _, ?_, rfl⟩
              intro j hj
              by_cases hlo : j < st.id
              · exact hinv.1 j hlo
              · exact nextFree_min st.map st.id j (by omega) hj

/-- A concrete phase-(b) state for the witness: the three reserved pieces
of `baseSpec` registered at ids 0, 1, 2, nothing processed yet. -/
def c4demoState : SymState :=
  ⟨[(0, (baseSpec.unk_piece, .UNKNOWN)), (1, (baseSpec.bos_piece, .CONTROL)),
    (2, (baseSpec.eos_piece, .CONTROL))], [], 0⟩

/-- Witness for `meta_symbol_step_characterization`: a fresh symbol on the
concrete `c4demoState`. -/
theorem meta_symbol_step_witness :
    (∃ e, insert_meta_symbol baseSpec [0x78] .CONTROL c4demoState = .error e) ↔
      ([0x78] ∈ c4demoState.dup ∨ [0x78] = baseSpec.unk_piece) :=
  (meta_symbol_step_characterization baseSpec c4demoState [0x78] .CONTROL
    ⟨fun j h => absurd h (Nat.not_lt_zero j), by decide, by decide, by decide, by decide⟩).1

theorem countUNK_append_singleton (m : MetaMap) (k : Nat) (w : Text) (ty : PieceType) :
    countUNK (m ++ [(k, (w, ty))]) =
      countUNK m + (if ty = PieceType.UNKNOWN then 1 else 0) := by
  unfold countUNK
  rw [List.countP_append]
  by_cases h : ty = PieceType.UNKNOWN <;> simp [List.countP, List.countP.go, h]

theorem mem_eq_mfind_of_nodup {m : MetaMap} (hnd : (mkeys m).Nodup) {p : Nat × MetaPc}
    (hp : p ∈ m) : mfind m p.1 = some p.2 := by
  induction m with
  | nil => cases hp
  | cons q m ih =>
    unfold mkeys at hnd
    rw [List.map_cons, List.nodup_cons] at hnd
    rcases List.mem_cons.mp hp with rfl | hmem
    · rw [mfind_cons, if_pos rfl]
    · rw [mfind_cons]
      by_cases hq : q.1 = p.1
      · exact absurd (hq ▸ List.mem_map_of_mem Prod.fst hmem) hnd.1
      · rw [if_neg hq]
        exact ih hnd.2 hmem

theorem countUNK_msetType {m : MetaMap} {i : Nat} {t : PieceType}
    (hsome : (mfind m i).isSome)
    (hnone : ∀ p ∈ m, p.1 = i → p.2.2 ≠ PieceType.UNKNOWN)
    (ht : t ≠ PieceType.UNKNOWN) :
    countUNK (msetType m i t) = countUNK m := by
  unfold msetType countUNK
  rw [if_pos hsome, List.countP_map]
  refine List.countP_congr ?_
  intro p hp
  by_cases hk : p.1 = i
  · simp [Function.comp, hk, ht, hnone p hp hk]
  · simp [Function.comp, hk]

/-- The text invariant: every UNKNOWN-categorized entry carries the UNKNOWN
text.  Together with `countUNK` and `C4Inv` this is what phase (b)
preserves. -/
def UnkTextInv (ts : TrainerSpec) (m : MetaMap) : Prop :=
  ∀ p ∈ m, p.2.2 = PieceType.UNKNOWN → p.2.1 = ts.unk_piece

theorem unkTextInv_msetType {ts : TrainerSpec} {m : MetaMap} {i : Nat}
    {t : PieceType} (hsome : (mfind m i).isSome) (ht : t ≠ PieceType.UNKNOWN)
    (hinv : UnkTextInv ts m) : UnkTextInv ts (msetType m i t) := by
  unfold msetType
  rw [if_pos hsome]
  intro p hp hu
  rcases List.mem_map.mp hp with ⟨q, hq, rfl⟩
  by_cases hk : q.1 = i
  · rw [if_pos hk] at hu ⊢
    exact absurd hu ht
  · rw [if_neg hk] at hu ⊢
    exact hinv q hq hu

theorem unkTextInv_append {ts : TrainerSpec} {m : MetaMap} {k : Nat} {w : Text}
    {t : PieceType} (ht : t ≠ PieceType.UNKNOWN) (hinv : UnkTextInv ts m) :
    UnkTextInv ts (m ++ [(k, (w, t))]) := by
  intro p hp hu
  rcases List.mem_append.mp hp with hmem | hmem
  · exact hinv p hmem hu
  · rw [List.mem_singleton] at hmem
    subst hmem
    exact absurd hu ht

/-- Phase (a) invariant tying `has_unk` to the number of UNKNOWN entries. -/
def ResInv (ts : TrainerSpec) (st : ResState) : Prop :=
  countUNK st.map = (if st.has_unk then 1 else 0) ∧
  UnkTextInv ts st.map ∧
  (mkeys st.map).Nodup

theorem insert_id_resinv (ts : TrainerSpec) (id : Int) (w : Text)
    {st st' : ResState} (hok : insert_id ts id w st = .ok st')
    (hinv : ResInv ts st) : ResInv ts st' := by
  obtain ⟨hcount, htext, hnodup⟩ := hinv
  unfold insert_id at hok
  by_cases hneg : id < 0
  · rw [if_pos hneg] at hok
    injection hok with h
    subst h
    exact ⟨hcount, htext, hnodup⟩
  · rw [if_neg hneg] at hok
    by_cases hbad : ts.vocab_size ≤ id ∨ (mfind st.map id.toNat).isSome = true ∨
        (st.has_unk = true ∧ w = ts.unk_piece)
    · rw [if_pos (by exact_mod_cast hbad)] at hok
      exact absurd hok (by simp)
    · rw [if_neg (by exact_mod_cast hbad)] at hok
      injection hok with h
      subst h
      push_neg at hbad
      obtain ⟨hvs, hfree, hunk⟩ := hbad
      refine ⟨?_, ?_, ?_⟩
      · rw [countUNK_append_singleton, hcount]
        by_cases hw : w = ts.unk_piece
        · have : st.has_unk = false := by
            cases hu : st.has_unk
            · rfl
            · exact absurd hw (hunk hu)
          simp [this, hw]
        · simp [hw]
      · intro p hp hu
        rcases List.mem_append.mp hp with hmem | hmem
        · exact htext p hmem hu
        · rw [List.mem_singleton] at hmem
          subst hmem
          by_cases hw : w = ts.unk_piece
          · exact hw
          · rw [if_neg hw] at hu
            exact absurd hu (by simp)
      · rw [mkeys_append, List.nodup_append]
        refine ⟨hnodup, List.nodup_singleton _, ?_⟩
        intro a ha hb
        rw [List.mem_singleton] at hb
        subst hb
        have hfree2 : mfind st.map id.toNat = none := by
          rw [← Option.not_isSome_iff_eq_none]
          simpa using hfree
        exact (mfind_eq_none_iff.mp hfree2) ha

theorem insert_id_preserves_found (ts : TrainerSpec) (id : Int) (w : Text)
    {st st' : ResState} (hok : insert_id ts id w st = .ok st')
    {k : Nat} {v : MetaPc} (hf : mfind st.map k = some v) :
    mfind st'.map k = some v := by
  unfold insert_id at hok
  by_cases hneg : id < 0
  · rw [if_pos hneg] at hok
    injection hok with h
    subst h
    exact hf
  · rw [if_neg hneg] at hok
    split at hok
    · exact absurd hok (by simp)
    · injection hok with h
      subst h
      rw [mfind_append_left _ (by rw [hf]; rfl)]
      exact hf

theorem insert_id_has_unk_mono (ts : TrainerSpec) (id : Int) (w : Text)
    {st st' : ResState} (hok : insert_id ts id w st = .ok st')
    (h : st.has_unk = true) : st'.has_unk = true := by
  unfold insert_id at hok
  by_cases hneg : id < 0
  · rw [if_pos hneg] at hok
    injection hok with hh
    subst hh
    exact h
  · rw [if_neg hneg] at hok
    split at hok
    · exact absurd hok (by simp)
    · injection hok with hh
      subst hh
      simp [h]

theorem insert_id_new_entry (ts : TrainerSpec) (id : Int) (w : Text)
    {st st' : ResState} (hok : insert_id ts id w st = .ok st') (hge : 0 ≤ id) :
    mfind st'.map id.toNat =
      some (w, if w = ts.unk_piece then PieceType.UNKNOWN else PieceType.CONTROL) := by
  unfold insert_id at hok
  rw [if_neg (by omega)] at hok
  split at hok
  · exact absurd hok (by simp)
  · rename_i hcond
    injection hok with hh
    subst hh
    push_neg at hcond
    have hfree : mfind st.map id.toNat = none := by
      rw [← Option.not_isSome_iff_eq_none]
      simpa using hcond.2.1
    exact mfind_append_singleton_self _ hfree

theorem initReserved_ok (ts : TrainerSpec) {st : ResState}
    (h : initReserved ts = .ok st) :
    ResInv ts st ∧ st.has_unk = true ∧
    (0 ≤ ts.unk_id → mfind st.map ts.unk_id.toNat = some (ts.unk_piece, PieceType.UNKNOWN)) ∧
    (0 ≤ ts.bos_id → (mfind st.map ts.bos_id.toNat).map Prod.fst = some ts.bos_piece) ∧
    (0 ≤ ts.eos_id → (mfind st.map ts.eos_id.toNat).map Prod.fst = some ts.eos_piece) ∧
    (0 ≤ ts.pad_id → (mfind st.map ts.pad_id.toNat).map Prod.fst = some ts.pad_piece) := by
  have inv0 : ResInv ts ⟨[], false⟩ :=
    ⟨rfl, fun p hp => absurd hp (List.not_mem_nil p), List.nodup_nil⟩
  unfold initReserved at h
  cases e1 : insert_id ts ts.unk_id ts.unk_piece ⟨[], false⟩ with
  | error e => simp only [e1] at h; exact absurd h (by simp)
  | ok st1 =>
    simp only [e1] at h
    cases e2 : insert_id ts ts.bos_id ts.bos_piece st1 with
    | error e => simp only [e2] at h; exact absurd h (by simp)
    | ok st2 =>
      simp only [e2] at h
      cases e3 : insert_id ts ts.eos_id ts.eos_piece st2 with
      | error e => simp only [e3] at h; exact absurd h (by simp)
      | ok st3 =>
        simp only [e3] at h
        cases e4 : insert_id ts ts.pad_id ts.pad_piece st3 with
        | error e => simp only [e4] at h; exact absurd h (by simp)
        | ok st4 =>
          simp only [e4] at h
          by_cases hu : st4.has_unk = true
          · rw [if_pos hu] at h
            injection h with hh
            subst hh
            have inv4 : ResInv ts st4 :=
              insert_id_resinv ts ts.pad_id ts.pad_piece e4
                (insert_id_resinv ts ts.eos_id ts.eos_piece e3
                  (insert_id_resinv ts ts.bos_id ts.bos_piece e2
                    (insert_id_resinv ts ts.unk_id ts.unk_piece e1 inv0)))
            refine ⟨inv4, hu, ?_, ?_, ?_, ?_⟩
            · intro hge
              have h1 := insert_id_new_entry ts ts.unk_id ts.unk_piece e1 hge
              rw [if_pos rfl] at h1
              exact insert_id_preserves_found ts ts.pad_id ts.pad_piece e4
                (insert_id_preserves_found ts ts.eos_id ts.eos_piece e3
                  (insert_id_preserves_found ts ts.bos_id ts.bos_piece e2 h1))
            · intro hge
              have h1 := insert_id_new_entry ts ts.bos_id ts.bos_piece e2 hge
              rw [insert_id_preserves_found ts ts.pad_id ts.pad_piece e4
                (insert_id_preserves_found ts ts.eos_id ts.eos_piece e3 h1)]
              rfl
            · intro hge
              have h1 := insert_id_new_entry ts ts.eos_id ts.eos_piece e3 hge
              rw [insert_id_preserves_found ts ts.pad_id ts.pad_piece e4 h1]
              rfl
            · intro hge
              have h1 := insert_id_new_entry ts ts.pad_id ts.pad_piece e4 hge
              rw [h1]
              rfl
          · rw [if_neg hu] at h
            exact absurd h (by simp)

/-- Count/text facts for one alias branch of `insert_meta_symbol`. -/
theorem alias_count_branch (ts : TrainerSpec) {st : SymState} (rid : Int)
    (piece w : Text) (t : PieceType) (hw : w = piece) (h2 : ¬ w = ts.unk_piece)
    (htxt : (mfind st.map rid.toNat).map Prod.fst = some piece)
    (ht : t ≠ PieceType.UNKNOWN) (hcount : countUNK st.map = 1)
    (htext : UnkTextInv ts st.map) (hnodup : (mkeys st.map).Nodup) :
    countUNK (msetType st.map rid.toNat t) = 1 ∧
      UnkTextInv ts (msetType st.map rid.toNat t) := by
  have hsome := isSome_of_map_fst_eq_some htxt
  have hnone : ∀ p ∈ st.map, p.1 = rid.toNat → p.2.2 ≠ PieceType.UNKNOWN := by
    intro p hp hk hu
    have hmf := mem_eq_mfind_of_nodup hnodup hp
    rw [hk] at hmf
    have hfst : p.2.1 = piece := by
      rw [hmf] at htxt
      simpa using htxt
    have hup := htext p hp hu
    rw [hup] at hfst
    exact h2 (hw.trans hfst.symm)
  constructor
  · rw [countUNK_msetType hsome hnone ht]
    exact hcount
  · exact unkTextInv_msetType hsome ht htext

/-- One phase-(b) step with a non-UNKNOWN category preserves the UNKNOWN
count, the UNKNOWN-text invariant, and `C4Inv`. -/
theorem insert_meta_symbol_count (ts : TrainerSpec) (w : Text) (t : PieceType)
    {st st' : SymState} (ht : t ≠ PieceType.UNKNOWN)
    (hok : insert_meta_symbol ts w t st = .ok st')
    (hcount : countUNK st.map = 1) (htext : UnkTextInv ts st.map)
    (hinv : C4Inv ts st) :
    countUNK st'.map = 1 ∧ UnkTextInv ts st'.map ∧ C4Inv ts st' := by
  have hc4 := ((meta_symbol_step_characterization ts st w t hinv).2 st' hok).1
  unfold insert_meta_symbol at hok
  by_cases h1 : w ∈ st.dup
  · rw [if_pos h1] at hok
    exact absurd hok (by simp)
  · rw [if_neg h1] at hok
    by_cases h2 : w = ts.unk_piece
    · rw [if_pos h2] at hok
      exact absurd hok (by simp)
    · rw [if_neg h2] at hok
      by_cases h3 : w = ts.bos_piece ∧ 0 ≤ ts.bos_id
      · rw [if_pos h3] at hok
        injection hok with hh
        subst hh
        have hfacts := alias_count_branch ts ts.bos_id ts.bos_piece w t h3.1 h2
          (hinv.2.2.1 h3.2) ht hcount htext hinv.2.1
        exact ⟨hfacts.1, hfacts.2, hc4⟩
      · rw [if_neg h3] at hok
        by_cases h4 : w = ts.eos_piece ∧ 0 ≤ ts.eos_id
        · rw [if_pos h4] at hok
          injection hok with hh
          subst hh
          have hfacts := alias_count_branch ts ts.eos_id ts.eos_piece w t h4.1 h2
            (hinv.2.2.2.1 h4.2) ht hcount htext hinv.2.1
          exact ⟨hfacts.1, hfacts.2, hc4⟩
        · rw [if_neg h4] at hok
          by_cases h5 : w = ts.pad_piece ∧ 0 ≤ ts.pad_id
          · rw [if_pos h5] at hok
            injection hok with hh
            subst hh
            have hfacts := alias_count_branch ts ts.pad_id ts.pad_piece w t h5.1 h2
              (hinv.2.2.2.2 h5.2) ht hcount htext hinv.2.1
            exact ⟨hfacts.1, hfacts.2, hc4⟩
          · rw [if_neg h5] at hok
            injection hok with hh
            subst hh
            refine ⟨?_, unkTextInv_append ht htext, hc4⟩
            rw [countUNK_append_singleton]
            simp [ht, hcount]

/-- The invariants carry through a whole symbol list. -/
theorem insertSymbols_count (ts : TrainerSpec) (t : PieceType)
    (ht : t ≠ PieceType.UNKNOWN) (ws : List Text) :
    ∀ (st st' : SymState), insertSymbols ts t ws st = .ok st' →
      countUNK st.map = 1 → UnkTextInv ts st.map → C4Inv ts st →
      countUNK st'.map = 1 ∧ UnkTextInv ts st'.map ∧ C4Inv ts st' := by
  induction ws with
  | nil =>
    intro st st' h hc htx hi
    unfold insertSymbols at h
    injection h with hh
    subst hh
    exact ⟨hc, htx, hi⟩
  | cons w ws ih =>
    intro st st' h hc htx hi
    unfold insertSymbols at h
    cases e : insert_meta_symbol ts w t st with
    | error e2 =>
      simp only [e] at h
      exact absurd h (by simp)
    | ok st2 =>
      simp only [e] at h
      obtain ⟨hc2, htx2, hi2⟩ := insert_meta_symbol_count ts w t ht e hc htx hi
      exact ih st2 st' h hc2 htx2 hi2

/-- Claim C5: (i) one `insert_id` call is a no-op for a negative id, fails
for a non-negative id exactly when the id is out of `[0, vocab_size)`,
already taken, or a second id claims the UNKNOWN text, and otherwise
registers the piece at that id (UNKNOWN category for the UNKNOWN text,
CONTROL otherwise) while updating `has_unk`; (ii) a successful phase (a)
has `has_unk` set (the UNKNOWN symbol is registered, and exactly one
UNKNOWN entry exists), each of the four reserved symbols with non-negative
configured id sitting at that id; (iii) every successfully built registry
(`InitMetaPieces`) has exactly one UNKNOWN entry. -/
theorem reserved_meta_piece_initialization :
    (∀ (ts : TrainerSpec) (id : Int) (w : Text) (st : ResState),
      (id < 0 → insert_id ts id w st = .ok st) ∧
      (0 ≤ id →
        ((insert_id ts id w st).isOk = false ↔
          (ts.vocab_size ≤ id ∨ (mfind st.map id.toNat).isSome = true ∨
            (st.has_unk = true ∧ w = ts.unk_piece))) ∧
        (∀ st', insert_id ts id w st = .ok st' →
          st'.map = st.map ++ [(id.toNat,
            (w, if w = ts.unk_piece then PieceType.UNKNOWN else PieceType.CONTROL))] ∧
          st'.has_unk = (st.has_unk || decide (w = ts.unk_piece))))) ∧
    (∀ (ts : TrainerSpec) (st : ResState), initReserved ts = .ok st →
      st.has_unk = true ∧ countUNK st.map = 1 ∧
      (0 ≤ ts.unk_id → mfind st.map ts.unk_id.toNat = some (ts.unk_piece, PieceType.UNKNOWN)) ∧
      (0 ≤ ts.bos_id → (mfind st.map ts.bos_id.toNat).map Prod.fst = some ts.bos_piece) ∧
      (0 ≤ ts.eos_id → (mfind st.map ts.eos_id.toNat).map Prod.fst = some ts.eos_piece) ∧
      (0 ≤ ts.pad_id → (mfind st.map ts.pad_id.toNat).map Prod.fst = some ts.pad_piece)) ∧
    (∀ (ts : TrainerSpec) (m : MetaMap), initMetaPieces ts = .ok m → countUNK m = 1) := by
  refine ⟨?_, ?_, ?_⟩
  · intro ts id w st
    constructor
    · intro hneg
      unfold insert_id
      rw [if_pos hneg]
    · intro hge
      constructor
      · unfold insert_id
        rw [if_neg (by omega)]
        by_cases hbad : ts.vocab_size ≤ id ∨ (mfind st.map id.toNat).isSome = true ∨
            (st.has_unk = true ∧ w = ts.unk_piece)
        · rw [if_pos hbad]
          exact iff_of_true rfl hbad
        · rw [if_neg hbad]
          exact iff_of_false (by simp [Except.isOk, Except.toBool]) hbad
      · intro st' hok
        unfold insert_id at hok
        rw [if_neg (by omega)] at hok
        split at hok
        · exact absurd hok (by simp)
        · injection hok with hh
          subst hh
          exact ⟨rfl, rfl⟩
  · intro ts st h
    have hfacts := initReserved_ok ts h
    refine ⟨hfacts.2.1, ?_, hfacts.2.2⟩
    rw [hfacts.1.1, if_pos hfacts.2.1]
  · intro ts m h
    unfold initMetaPieces at h
    cases e0 : initReserved ts with
    | error e => simp only [e0] at h; exact absurd h (by simp)
    | ok r =>
      simp only [e0] at h
      have hres := initReserved_ok ts e0
      cases e1 : insertSymbols ts .CONTROL ts.control_symbols ⟨r.map, [], 0⟩ with
      | error e => simp only [e1] at h; exact absurd h (by simp)
      | ok st1 =>
        simp only [e1] at h
        cases e2 : insertSymbols ts .USER_DEFINED ts.user_defined_symbols st1 with
        | error e => simp only [e2] at h; exact absurd h (by simp)
        | ok st2 =>
          simp only [e2] at h
          injection h with hh
          subst hh
          have hstart0 : countUNK (SymState.mk r.map [] 0).map = 1 := by
            have := hres.1.1
            rw [this, if_pos hres.2.1]
          have hstartInv : C4Inv ts (SymState.mk r.map [] 0) :=
            ⟨fun j hj => absurd hj (Nat.not_lt_zero j), hres.1.2.2,
              hres.2.2.2.1, hres.2.2.2.2.1, hres.2.2.2.2.2⟩
          obtain ⟨hc1, htx1, hi1⟩ := insertSymbols_count ts .CONTROL (by simp)
            ts.control_symbols _ st1 e1 hstart0 hres.1.2.1 hstartInv
          obtain ⟨hc2, htx2, hi2⟩ := insertSymbols_count ts .USER_DEFINED (by simp)
            ts.user_defined_symbols st1 st2 e2 hc1 htx1 hi1
          exact hc2

/-- The registry `InitMetaPieces` builds for `baseSpec`. -/
def c5map : MetaMap :=
  [(0, (baseSpec.unk_piece, .UNKNOWN)), (1, (baseSpec.bos_piece, .CONTROL)),
    (2, (baseSpec.eos_piece, .CONTROL))]

/-- Witness for `reserved_meta_piece_initialization`: the registry built
for the concrete `baseSpec` has exactly one UNKNOWN entry. -/
theorem reserved_meta_piece_initialization_witness : countUNK c5map = 1 :=
  reserved_meta_piece_initialization.2.2 baseSpec c5map (by rfl)

/-! ## ModelSerializer: `TrainerInterface::Serialize` -/

/-- One entry of `ModelProto.pieces`. -/
structure SPPiece where
  piece : Text
  ptype : PieceType
  score : ℚ
deriving DecidableEq, Repr

/-- The parts of `ModelProto` that `Serialize` fills in: the ordered piece
list and the recorded trainer configuration. -/
structure ModelProto where
  pieces : List SPPiece
  tspec : TrainerSpec
deriving DecidableEq, Repr

/-- Modelled from the spec: `string_util::IsValidCodepoint` (util.h, which
is not under src/).  A code point is interchange-valid when it is below the
surrogate range or a scalar value in [0xE000, 0x10FFFF]. -/
def isValidCodepoint (c : Nat) : Bool :=
  decide (c < 0xD800) || (decide (0xE000 ≤ c) && decide (c ≤ 0x10FFFF))

/-- Modelled from the spec: `string_util::IsStructurallyValid` (util.h, not
under src/) on the code-point model — every code point of the text is
interchange-valid (a code-point sequence encodes to structurally valid
UTF-8 exactly when all its code points are valid). -/
def isStructurallyValid (t : Text) : Bool := t.all isValidCodepoint

/-- The `CHECK_PIECE` macro of `Serialize` (lines 460-463): structural
validity, non-emptiness, then uniqueness via insertion into `dup`. -/
def checkPiece (dup : List Text) (p : Text) : Except Err (List Text) :=
  if ¬ isStructurallyValid p then .error .pieceNotValid
  else if p = [] then .error .pieceEmpty
  else if p ∈ dup then .error .pieceDup
  else .ok (p :: dup)

/-- The running state of the assembly loop of `Serialize`. -/
structure SerState where
  pieces : List SPPiece
  fid : Nat
  dup : List Text
deriving DecidableEq, Repr

/-- One candidate identifier of the assembly loop (lines 466-483): a
registered meta piece is emitted at score 0 with its id and category
checked; otherwise the next unconsumed learned piece is emitted; otherwise
nothing is emitted at this id. -/
def serStep (meta : MetaMap) (final : List (Text × ℚ)) (st : SerState) (id : Nat) :
    Except Err SerState :=
  match mfind meta id with
  | some mp =>
    let pieces2 := st.pieces ++ [⟨mp.1, mp.2, 0⟩]
    if pieces2.length - 1 ≠ id then .error .pieceIdMismatch
    else if mp.2 = PieceType.NORMAL then .error .pieceIsNormal
    else
      match checkPiece st.dup mp.1 with
      | .error e => .error e
      | .ok dup2 => .ok ⟨pieces2, st.fid, dup2⟩
  | none =>
    if h : st.fid < final.length then
      let wsc := final.get ⟨st.fid, h⟩
      match checkPiece st.dup wsc.1 with
      | .error e => .error e
      | .ok dup2 => .ok ⟨st.pieces ++ [⟨wsc.1, PieceType.NORMAL, wsc.2⟩], st.fid + 1, dup2⟩
    else .ok st

/-- The assembly loop over the candidate identifiers. -/
def serLoop (meta : MetaMap) (final : List (Text × ℚ)) :
    List Nat → SerState → Except Err SerState
  | [], st => .ok st
  | id :: ids, st =>
    match serStep meta final st id with
    | .error e => .error e
    | .ok st2 => serLoop meta final ids st2

/-- `TrainerInterface::Serialize` (lines 454-504): assemble pieces for ids
`0 .. vocab_size-1`, require all learned pieces consumed, then reconcile
the size limit — soft enforcement (or CHAR model) allows fewer pieces and
rewrites the recorded vocabulary size, hard enforcement requires exact
counts. -/
def serialize (ts : TrainerSpec) (meta : MetaMap) (final : List (Text × ℚ)) :
    Except Err ModelProto :=
  match serLoop meta final (List.range ts.vocab_size.toNat) ⟨[], 0, []⟩ with
  | .error e => .error e
  | .ok st =>
    if st.fid ≠ final.length then .error .fidMismatch
    else if ¬ ts.hard_vocab_limit = true ∨ ts.model_type = .CHAR then
      if ¬ ((st.pieces.length : Int) ≤ ts.vocab_size) then .error .sizeNotLe
      else if ¬ ((st.dup.length : Int) ≤ ts.vocab_size) then .error .dupNotLe
      else .ok ⟨st.pieces, { ts with vocab_size := (st.pieces.length : Int) }⟩
    else
      if ¬ ((st.pieces.length : Int) = ts.vocab_size) then .error .sizeNotEq
      else if ¬ ((st.dup.length : Int) = ts.vocab_size) then .error .dupNotEq
      else .ok ⟨st.pieces, ts⟩

/-- The invariant the assembly loop maintains: `dup` is exactly the emitted
texts (newest first), the emitted texts are pairwise distinct, and every
emitted text is non-empty and structurally valid. -/
def SerInv (st : SerState) : Prop :=
  st.dup = (st.pieces.map SPPiece.piece).reverse ∧
  (st.pieces.map SPPiece.piece).Nodup ∧
  (∀ p ∈ st.pieces, p.piece ≠ [] ∧ isStructurallyValid p.piece = true)

theorem checkPiece_ok {dup : List Text} {p : Text} {dup2 : List Text}
    (h : checkPiece dup p = .ok dup2) :
    dup2 = p :: dup ∧ isStructurallyValid p = true ∧ p ≠ [] ∧ p ∉ dup := by
  unfold checkPiece at h
  by_cases h1 : isStructurallyValid p = true
  · rw [if_neg (by simp [h1])] at h
    by_cases h2 : p = []
    · rw [if_pos h2] at h
      exact absurd h (by simp)
    · rw [if_neg h2] at h
      by_cases h3 : p ∈ dup
      · rw [if_pos h3] at h
        exact absurd h (by simp)
      · rw [if_neg h3] at h
        injection h with hh
        exact ⟨hh.symm, h1, h2, h3⟩
  · rw [if_pos (by simpa using h1)] at h
    exact absurd h (by simp)

/-- Appending one checked piece preserves the loop invariant. -/
theorem serInv_emit {st : SerState} (hinv : SerInv st) {w : Text} {dup2 : List Text}
    (hck : checkPiece st.dup w = .ok dup2) (ty : PieceType) (sc : ℚ) (fid2 : Nat) :
    SerInv ⟨st.pieces ++ [⟨w, ty, sc⟩], fid2, dup2⟩ := by
  obtain ⟨hdup, hnd, hval⟩ := hinv
  obtain ⟨hd2, hsv, hne, hnin⟩ := checkPiece_ok hck
  refine ⟨?_, ?_, ?_⟩
  · rw [hd2, hdup]
    simp
  · rw [List.map_append]
    rw [List.nodup_append]
    refine ⟨hnd, by simp, ?_⟩
    intro a ha hb
    simp only [List.map_cons, List.map_nil, List.mem_singleton] at hb
    subst hb
    exact hnin (by rw [hdup]; simpa using ha)
  · intro p hp
    rcases List.mem_append.mp hp with hmem | hmem
    · exact hval p hmem
    · rw [List.mem_singleton] at hmem
      subst hmem
      exact ⟨hne, hsv⟩

theorem serStep_inv (meta : MetaMap) (final : List (Text × ℚ)) {st st2 : SerState}
    (id : Nat) (h : serStep meta final st id = .ok st2) (hinv : SerInv st) :
    SerInv st2 := by
  unfold serStep at h
  cases hm : mfind meta id with
  | some mp =>
    simp only [hm] at h
    split at h
    · exact absurd h (by simp)
    · split at h
      · exact absurd h (by simp)
      · cases hck : checkPiece st.dup mp.1 with
        | error e =>
          simp only [hck] at h
          exact absurd h (by simp)
        | ok dup2 =>
          simp only [hck] at h
          injection h with hh
          subst hh
          exact serInv_emit hinv hck mp.2 0 st.fid
  | none =>
    simp only [hm] at h
    split at h
    · rename_i hf
      cases hck : checkPiece st.dup (final.get ⟨st.fid, hf⟩).1 with
      | error e =>
        simp only [hck] at h
        exact absurd h (by simp)
      | ok dup2 =>
        simp only [hck] at h
        injection h with hh
        subst hh
        exact serInv_emit hinv hck PieceType.NORMAL _ (st.fid + 1)
    · injection h with hh
      subst hh
      exact hinv

theorem serLoop_inv (meta : MetaMap) (final : List (Text × ℚ)) (ids : List Nat) :
    ∀ {st st2 : SerState}, serLoop meta final ids st = .ok st2 → SerInv st → SerInv st2 := by
  induction ids with
  | nil =>
    intro st st2 h hinv
    injection h with hh
    subst hh
    exact hinv
  | cons id ids ih =>
    intro st st2 h hinv
    unfold serLoop at h
    cases e : serStep meta final st id with
    | error e2 =>
      simp only [e] at h
      exact absurd h (by simp)
    | ok stm =>
      simp only [e] at h
      exact ih h (serStep_inv meta final id e hinv)

/-- Claim C1: for every successful `Serialize` run — under hard vocabulary
enforcement with a non-CHAR model, the number of emitted pieces and the
number of distinct emitted piece texts both equal the configured vocabulary
size; under soft enforcement (or a CHAR model), the emitted count is at
most the configured size and the vocabulary size recorded in the output
config equals the actual emitted count. -/
theorem serialize_size_reconciliation (ts : TrainerSpec) (meta : MetaMap)
    (final : List (Text × ℚ)) (proto : ModelProto)
    (h : serialize ts meta final = .ok proto) :
    (ts.hard_vocab_limit = true ∧ ts.model_type ≠ .CHAR →
      (proto.pieces.length : Int) = ts.vocab_size ∧
      ((proto.pieces.map SPPiece.piece).dedup.length : Int) = ts.vocab_size) ∧
    ((¬ ts.hard_vocab_limit = true ∨ ts.model_type = .CHAR) →
      (proto.pieces.length : Int) ≤ ts.vocab_size ∧
      proto.tspec.vocab_size = (proto.pieces.length : Int)) := by
  unfold serialize at h
  cases e : serLoop meta final (List.range ts.vocab_size.toNat) ⟨[], 0, []⟩ with
  | error e2 =>
    simp only [e] at h
    exact absurd h (by simp)
  | ok st =>
    simp only [e] at h
    have hinv : SerInv st :=
      serLoop_inv _ _ _ e ⟨rfl, by simp, by intro p hp; cases hp⟩
    split at h
    · exact absurd h (by simp)
    · split at h
      · rename_i hsoft
        split at h
        · exact absurd h (by simp)
        · split at h
          · exact absurd h (by simp)
          · rename_i hsz hdup2
            injection h with hh
            subst hh
            constructor
            · intro hhard
              rcases hsoft with hs | hs
              · exact absurd hhard.1 hs
              · exact absurd hs hhard.2
            · intro _
              exact ⟨not_not.mp hsz, rfl⟩
      · rename_i hsoft
        split at h
        · exact absurd h (by simp)
        · split at h
          · exact absurd h (by simp)
          · rename_i hsz hdup2
            injection h with hh
            subst hh
            have hlen : ((st.pieces.length : Int)) = ts.vocab_size := not_not.mp hsz
            constructor
            · intro _
              refine ⟨hlen, ?_⟩
              rw [(hinv.2.1).dedup, List.length_map]
              exact hlen
            · intro hs
              exact absurd hs hsoft

/-- `baseSpec` with a vocabulary of two. -/
def vocab2Spec : TrainerSpec := { baseSpec with vocab_size := 2 }

/-- A one-entry registry for the `Serialize` witness. -/
def c1meta : MetaMap := [(0, (baseSpec.unk_piece, .UNKNOWN))]

/-- One learned piece for the `Serialize` witness. -/
def c1final : List (Text × ℚ) := [([0x61], 0)]

/-- The artifact `Serialize` emits for `vocab2Spec`/`c1meta`/`c1final`. -/
def c1proto : ModelProto :=
  ⟨[⟨baseSpec.unk_piece, .UNKNOWN, 0⟩, ⟨[0x61], .NORMAL, 0⟩], vocab2Spec⟩

/-- Witness for `serialize_size_reconciliation`: a concrete successful hard
run with vocabulary size 2. -/
theorem serialize_size_reconciliation_witness :
    (vocab2Spec.hard_vocab_limit = true ∧ vocab2Spec.model_type ≠ .CHAR →
      (c1proto.pieces.length : Int) = vocab2Spec.vocab_size ∧
      ((c1proto.pieces.map SPPiece.piece).dedup.length : Int) = vocab2Spec.vocab_size) ∧
    ((¬ vocab2Spec.hard_vocab_limit = true ∨ vocab2Spec.model_type = .CHAR) →
      (c1proto.pieces.length : Int) ≤ vocab2Spec.vocab_size ∧
      c1proto.tspec.vocab_size = (c1proto.pieces.length : Int)) :=
  serialize_size_reconciliation vocab2Spec c1meta c1final c1proto (by rfl)

/-- The external unicode-script classifier consulted by
`IsValidSentencePiece`, together with the three script constants the merge
rule mentions (unicode_script.h is an external collaborator; `kAnyType` is
represented by -1). -/
structure ScriptEnv where
  getScript : Nat → Int
  hira : Int
  kata : Int
  han : Int

/-- `is_number` of `IsValidSentencePiece`. -/
def isNumberChar (c : Nat) : Bool := decide (0x30 ≤ c) && decide (c ≤ 0x39)

/-- The script value `IsValidSentencePiece` tracks for a non-whitespace
code point: Hiragana/Katakana (and the long-vowel mark) merge into Han, and
numbers are neutralized (`kAnyType = -1`) when `split_by_number` is off. -/
def mergedScript (ts : TrainerSpec) (env : ScriptEnv) (c : Nat) : Int :=
  if ¬ ts.split_by_number = true ∧ isNumberChar c = true then -1
  else if env.getScript c = env.hira ∨ env.getScript c = env.kata ∨ c = 0x30FC then env.han
  else env.getScript c

/-- The per-position scan of `IsValidSentencePiece` (lines 181-245): the
remaining code points with the current position, the total length `n`, and
`prev_script` are carried through. -/
def ivspLoop (ts : TrainerSpec) (env : ScriptEnv) (n : Nat) :
    List Nat → Nat → Int → Bool
  | [], _, _ => true
  | c :: rest, pos, prev =>
    if c = kUNKChar then false
    else if c = 0 then false
    else if c = kUPPBoundaryChar then false
    else if c = spaceChar then false
    else if ¬ isValidCodepoint c = true then false
    else if c = kWSChar then
      if ts.treat_whitespace_as_suffix = true then
        if (ts.split_by_whitespace = true ∧ pos < n - 1) ∨
            (¬ ts.split_by_whitespace = true ∧ pos < n - 1 ∧ pos = 0) then false
        else ivspLoop ts env n rest (pos + 1) prev
      else
        if (ts.split_by_whitespace = true ∧ 0 < pos) ∨
            (¬ ts.split_by_whitespace = true ∧ 0 < pos ∧ pos = n - 1) then false
        else ivspLoop ts env n rest (pos + 1) prev
    else
      if ts.split_by_unicode_script = true ∧ ¬ mergedScript ts env c = -1 ∧
          ¬ prev = -1 ∧ ¬ prev = mergedScript ts env c then false
      else ivspLoop ts env n rest (pos + 1) (mergedScript ts env c)

/-- `TrainerInterface::IsValidSentencePiece` (lines 165-247). -/
def isValidSentencePiece (ts : TrainerSpec) (env : ScriptEnv) (sp : Text) : Bool :=
  if sp = [] ∨ (ts.max_sentencepiece_length : Int) < (sp.length : Int) then false
  else ivspLoop ts env sp.length sp 0 (-1)

theorem ivspLoop_no_bad (ts : TrainerSpec) (env : ScriptEnv) (n : Nat) :
    ∀ (l : List Nat) (pos : Nat) (prev : Int), ivspLoop ts env n l pos prev = true →
      ∀ c ∈ l, c ≠ kUNKChar ∧ c ≠ 0 ∧ c ≠ kUPPBoundaryChar ∧ c ≠ spaceChar ∧
        isValidCodepoint c = true := by
  intro l
  induction l with
  | nil =>
    intro pos prev _ c hc
    cases hc
  | cons c0 rest ih =>
    intro pos prev h c hc
    unfold ivspLoop at h
    by_cases h1 : c0 = kUNKChar
    · rw [if_pos h1] at h
      exact absurd h (by simp)
    · rw [if_neg h1] at h
      by_cases h2 : c0 = 0
      · rw [if_pos h2] at h
        exact absurd h (by simp)
      · rw [if_neg h2] at h
        by_cases h3 : c0 = kUPPBoundaryChar
        · rw [if_pos h3] at h
          exact absurd h (by simp)
        · rw [if_neg h3] at h
          by_cases h4 : c0 = spaceChar
          · rw [if_pos h4] at h
            exact absurd h (by simp)
          · rw [if_neg h4] at h
            by_cases h5 : ¬ isValidCodepoint c0 = true
            · rw [if_pos h5] at h
              exact absurd h (by simp)
            · rw [if_neg h5] at h
              have hrest : ∀ c ∈ rest, c ≠ kUNKChar ∧ c ≠ 0 ∧ c ≠ kUPPBoundaryChar ∧
                  c ≠ spaceChar ∧ isValidCodepoint c = true := by
                by_cases h6 : c0 = kWSChar
                · rw [if_pos h6] at h
                  split at h
                  · split at h
                    · exact absurd h (by simp)
                    · exact ih (pos + 1) prev h
                  · split at h
                    · exact absurd h (by simp)
                    · exact ih (pos + 1) prev h
                · rw [if_neg h6] at h
                  split at h
                  · exact absurd h (by simp)
                  · exact ih (pos + 1) (mergedScript ts env c0) h
              rcases List.mem_cons.mp hc with rfl | hmem
              · exact ⟨h1, h2, h3, h4, not_not.mp h5⟩
              · exact hrest c hmem

/-- Claim C6 (amended): every successfully emitted artifact has only
non-empty, structurally valid, pairwise distinct piece texts; the
raw-space / unknown-character-codepoint exclusions hold for the texts that
pass the learned-piece validity filter `IsValidSentencePiece` (the
serializer itself does not re-check them, see the counterexample). -/
theorem serialize_piece_invariants (ts : TrainerSpec) (meta : MetaMap)
    (final : List (Text × ℚ)) (proto : ModelProto) (env : ScriptEnv)
    (h : serialize ts meta final = .ok proto) :
    ((∀ p ∈ proto.pieces, p.piece ≠ [] ∧ isStructurallyValid p.piece = true) ∧
      (proto.pieces.map SPPiece.piece).Nodup) ∧
    (∀ sp : Text, isValidSentencePiece ts env sp = true →
      sp ≠ [] ∧ spaceChar ∉ sp ∧ kUNKChar ∉ sp ∧ sp ≠ kUNKStr) := by
  constructor
  · unfold serialize at h
    cases e : serLoop meta final (List.range ts.vocab_size.toNat) ⟨[], 0, []⟩ with
    | error e2 =>
      simp only [e] at h
      exact absurd h (by simp)
    | ok st =>
      simp only [e] at h
      have hinv : SerInv st :=
        serLoop_inv _ _ _ e ⟨rfl, by simp, by intro p hp; cases hp⟩
      have hpieces : proto.pieces = st.pieces := by
        split at h
        · exact absurd h (by simp)
        · split at h
          · split at h
            · exact absurd h (by simp)
            · split at h
              · exact absurd h (by simp)
              · injection h with hh
                rw [← hh]
          · split at h
            · exact absurd h (by simp)
            · split at h
              · exact absurd h (by simp)
              · injection h with hh
                rw [← hh]
      rw [hpieces]
      exact ⟨hinv.2.2, hinv.2.1⟩
  · intro sp hval
    unfold isValidSentencePiece at hval
    split at hval
    · exact absurd hval (by simp)
    · rename_i hcond
      push_neg at hcond
      have hfacts := ivspLoop_no_bad ts env sp.length sp 0 (-1) hval
      refine ⟨hcond.1, ?_, ?_, ?_⟩
      · intro hmem
        exact (hfacts spaceChar hmem).2.2.2.1 rfl
      · intro hmem
        exact (hfacts kUNKChar hmem).1 rfl
      · intro hk
        have : kUNKChar ∈ sp := by
          rw [hk]
          unfold kUNKStr
          exact List.mem_singleton.mpr rfl
        exact (hfacts kUNKChar this).1 rfl

/-- A trivial concrete script environment for witnesses. -/
def trivialScriptEnv : ScriptEnv := ⟨fun _ => 0, 1, 2, 3⟩

/-- Witness for `serialize_piece_invariants` at the concrete hard run of
`vocab2Spec`. -/
theorem serialize_piece_invariants_witness :
    ((∀ p ∈ c1proto.pieces, p.piece ≠ [] ∧ isStructurallyValid p.piece = true) ∧
      (c1proto.pieces.map SPPiece.piece).Nodup) ∧
    (∀ sp : Text, isValidSentencePiece vocab2Spec trivialScriptEnv sp = true →
      sp ≠ [] ∧ spaceChar ∉ sp ∧ kUNKChar ∉ sp ∧ sp ≠ kUNKStr) :=
  serialize_piece_invariants vocab2Spec c1meta c1final c1proto trivialScriptEnv (by rfl)

/-- A configuration whose user-defined symbol contains a raw space; it
passes `VerifySpec` and `InitMetaPieces`. -/
def c6spec : TrainerSpec :=
  { baseSpec with
    vocab_size := 2
    bos_id := -1
    eos_id := -1
    user_defined_symbols := [[0x61, 0x20, 0x62]] }

/-- The registry `InitMetaPieces` builds for `c6spec`. -/
def c6meta : MetaMap :=
  [(0, (baseSpec.unk_piece, .UNKNOWN)), (1, ([0x61, 0x20, 0x62], .USER_DEFINED))]

/-- Claim C6 (counterexample): a configuration accepted by `VerifySpec`,
whose registry `InitMetaPieces` accepts, leads `Serialize` to successfully
emit a piece text containing a raw space — the claimed artifact invariant
fails for meta pieces. -/
theorem serialize_space_piece_counterexample :
    verifySpec c6spec = .ok () ∧
    initMetaPieces c6spec = .ok c6meta ∧
    (serialize c6spec c6meta []).map (fun proto => proto.pieces.map SPPiece.piece) =
      .ok [baseSpec.unk_piece, [0x61, 0x20, 0x62]] ∧
    spaceChar ∈ ([0x61, 0x20, 0x62] : Text) := by
  refine ⟨?_, by decide, by decide, by decide⟩
  unfold verifySpec c6spec baseSpec
  norm_num
  decide

/-! ## CharacterCoverageBuilder: required character selection -/

/-- The comparator of the spec's deterministic sort: descending weighted
frequency, ties broken by ascending code point value. -/
def charGe (a b : Nat × Int) : Bool :=
  decide (b.2 < a.2) || (decide (a.2 = b.2) && decide (a.1 ≤ b.1))

/-- Insertion into a sorted list (structural insertion sort device). -/
def insertSorted (x : Nat × Int) : List (Nat × Int) → List (Nat × Int)
  | [] => [x]
  | y :: ys => if charGe x y then x :: y :: ys else y :: insertSorted x ys

/-- Modelled from the spec: `Sorted` (util.h, not under src/) — "Sort
distinct codepoints by descending frequency (ties broken by codepoint
value for determinism)". -/
def sortedChars (m : List (Nat × Int)) : List (Nat × Int) :=
  m.foldr insertSorted []

/-- The required-characters selection loop of `LoadSentences` (lines
386-400): walk the sorted counts with accumulated count `acc` and the set
built so far `req`; break once coverage is reached (unless
`use_all_vocab`), fail on a raw-space entry, always accumulate, skip the
boundary marker, insert everything else.  `all` is the precomputed total
character count. -/
def requiredCharsLoop (useAll : Bool) (target : ℚ) (all : Int) :
    List (Nat × Int) → Int → List (Nat × Int) → Except Err (List (Nat × Int))
  | [], _, req => .ok req
  | w :: rest, acc, req =>
    if ¬ useAll = true ∧ target ≤ (acc : ℚ) / (all : ℚ) then .ok req
    else if w.1 = spaceChar then .error .spaceRequired
    else if w.1 = kUPPBoundaryChar then requiredCharsLoop useAll target all rest (acc + w.2) req
    else requiredCharsLoop useAll target all rest (acc + w.2) (req ++ [w])

/-- The take-while-under-coverage prefix, as claim C3 words it (the count
of a skipped entry still accumulates). -/
def coverTake (useAll : Bool) (target : ℚ) (all : Int) :
    List (Nat × Int) → Int → List (Nat × Int)
  | [], _ => []
  | w :: rest, acc =>
    if ¬ useAll = true ∧ target ≤ (acc : ℚ) / (all : ℚ) then []
    else w :: coverTake useAll target all rest (acc + w.2)

/-- The required character set exactly as claim C3 words it: the coverage
prefix of the sorted counts, with the boundary marker excluded. -/
def requiredCharsSpec (useAll : Bool) (target : ℚ) (all : Int)
    (sorted : List (Nat × Int)) : List (Nat × Int) :=
  (coverTake useAll target all sorted 0).filter fun w => decide (w.1 ≠ kUPPBoundaryChar)

theorem requiredCharsLoop_spec (useAll : Bool) (target : ℚ) (all : Int) :
    ∀ (l : List (Nat × Int)) (acc : Int) (req r : List (Nat × Int)),
      requiredCharsLoop useAll target all l acc req = .ok r →
      r = req ++ (coverTake useAll target all l acc).filter
        (fun w => decide (w.1 ≠ kUPPBoundaryChar)) := by
  intro l
  induction l with
  | nil =>
    intro acc req r h
    unfold requiredCharsLoop at h
    injection h with hh
    subst hh
    simp [coverTake]
  | cons w rest ih =>
    intro acc req r h
    unfold requiredCharsLoop at h
    unfold coverTake
    by_cases hbreak : ¬ useAll = true ∧ target ≤ (acc : ℚ) / (all : ℚ)
    · rw [if_pos hbreak] at h
      rw [if_pos hbreak]
      injection h with hh
      subst hh
      simp
    · rw [if_neg hbreak] at h
      rw [if_neg hbreak]
      by_cases hsp : w.1 = spaceChar
      · rw [if_pos hsp] at h
        exact absurd h (by simp)
      · rw [if_neg hsp] at h
        by_cases htab : w.1 = kUPPBoundaryChar
        · rw [if_pos htab] at h
          have := ih (acc + w.2) req r h
          rw [this]
          rw [List.filter_cons]
          simp [htab]
        · rw [if_neg htab] at h
          have := ih (acc + w.2) (req ++ [w]) r h
          rw [this]
          rw [List.filter_cons]
          simp [htab]

/-- Claim C3: whenever the selection loop of the coverage builder succeeds
on the sorted counted code points, the set it builds is exactly the
spec-side set — the sorted order taken while the accumulated fraction is
below the target (everything under `use_all_vocab`), with the boundary
marker code point never included. -/
theorem required_chars_selection (m : List (Nat × Int)) (useAll : Bool)
    (target : ℚ) (all : Int) (r : List (Nat × Int))
    (h : requiredCharsLoop useAll target all (sortedChars m) 0 [] = .ok r) :
    r = requiredCharsSpec useAll target all (sortedChars m) ∧
    ∀ w ∈ r, w.1 ≠ kUPPBoundaryChar := by
  have hr := requiredCharsLoop_spec useAll target all (sortedChars m) 0 [] r h
  rw [List.nil_append] at hr
  constructor
  · exact hr
  · intro w hw
    rw [hr] at hw
    have := List.of_mem_filter hw
    simpa using this

/-- Concrete counted code points for the C3 witness: a letter and the
boundary marker. -/
def c3counts : List (Nat × Int) := [(0x61, 2), (0x09, 1)]

/-- The set the selection loop builds for `c3counts` under
`use_all_vocab`. -/
def c3result : List (Nat × Int) := [(0x61, 2)]

/-- Witness for `required_chars_selection` at `c3counts` (with
`use_all_vocab` set, so every entry but the boundary marker qualifies). -/
theorem required_chars_selection_witness :
    c3result = requiredCharsSpec true (99 / 100) 3 (sortedChars c3counts) ∧
    ∀ w ∈ c3result, w.1 ≠ kUPPBoundaryChar :=
  required_chars_selection c3counts true (99 / 100) 3 c3result (by decide)

/-! ## CorpusLoader / SentenceSelector / Normalizer Stage:
`TrainerInterface::LoadSentences` -/

/-- A sentence: text and 64-bit frequency. -/
abbrev Sentence := Text × Int

/-- Digit-prefix accumulation of `atoll`. -/
def atollDigits : List Nat → Int → Int
  | [], v => v
  | c :: rest, v =>
    if 0x30 ≤ c ∧ c ≤ 0x39 then atollDigits rest (v * 10 + ((c : Int) - 0x30))
    else v

/-- C `isspace` on the code-point model. -/
def isSpaceLike (c : Nat) : Bool := decide (c = 0x20) || (decide (0x09 ≤ c) && decide (c ≤ 0x0D))

/-- `atoll` of the C standard library: skip leading whitespace, optional
sign, then the longest digit prefix (0 when there is none).  The model
uses unbounded integers; `long long` overflow is out of range for corpus
lines and not modelled. -/
def atoll (s : Text) : Int :=
  match s.dropWhile isSpaceLike with
  | 0x2D :: rest => - atollDigits rest 0
  | 0x2B :: rest => atollDigits rest 0
  | other => atollDigits other 0

/-- Modelled from the spec: `string_util::Split` on the tab delimiter
(util.h, not under src/) — "a line must split into exactly two
tab-separated fields": the fields between consecutive tabs, in order. -/
def splitTab : Text → List Text
  | [] => [[]]
  | c :: rest =>
    if c = 0x09 then [] :: splitTab rest
    else
      match splitTab rest with
      | [] => [[c]]
      | f :: fs => (c :: f) :: fs

/-- The tsv branch of the corpus loader (lines 273-279): split on tab,
require exactly two fields, parse the frequency, require it ≥ 1. -/
def parseTsvLine (line : Text) : Except Err Sentence :=
  match splitTab line with
  | [w, f] => if 1 ≤ atoll f then .ok (w, atoll f) else .error .tsvBadFreq
  | _ => .error .tsvFieldCount

/-- Modelled from the spec: `random::ReservoirSampler` (util.h, not under
src/) — Algorithm R with a deterministic seeded stream `rng`, indexed by
the number of items seen: keep the first `cap` items, then replace a
uniformly drawn slot. -/
structure Reservoir (a : Type) where
  items : List a
  seen : Nat
  cap : Int
deriving Repr

/-- One Algorithm-R step. -/
def resAdd {a : Type} (rng : Nat → Nat) (r : Reservoir a) (x : a) : Reservoir a :=
  let seen2 := r.seen + 1
  if (r.items.length : Int) < r.cap then ⟨r.items ++ [x], seen2, r.cap⟩
  else
    let j := rng r.seen % seen2
    if (j : Int) < r.cap then ⟨r.items.set j x, seen2, r.cap⟩
    else ⟨r.items, seen2, r.cap⟩

/-- The selector state: the backing sentence store (which the reservoir
sampler also writes through to) and the sampler's seen-counter. -/
structure SelState where
  sentences : List Sentence
  seen : Nat
deriving Repr

/-- `SentenceSelector::Add` (lines 124-143): no limit configured — accept
everything; limit with shuffling — reservoir-sample into the store; limit
without shuffling — accept and signal stop once the limit is reached.  The
returned Bool is the keep-reading signal. -/
def selAdd (ts : TrainerSpec) (rng : Nat → Nat) (st : SelState) (s : Sentence) :
    SelState × Bool :=
  if ts.input_sentence_size ≤ 0 then (⟨st.sentences ++ [s], st.seen⟩, true)
  else if ts.shuffle_input_sentence = true then
    let seen2 := st.seen + 1
    if (st.sentences.length : Int) < ts.input_sentence_size then
      (⟨st.sentences ++ [s], seen2⟩, true)
    else if ((rng st.seen % seen2 : Nat) : Int) < ts.input_sentence_size then
      (⟨st.sentences.set (rng st.seen % seen2) s, seen2⟩, true)
    else (⟨st.sentences, seen2⟩, true)
  else
    let sen2 := st.sentences ++ [s]
    (⟨sen2, st.seen⟩, decide ((sen2.length : Int) < ts.input_sentence_size))

/-- The reading loop of `LoadSentences` (lines 266-308) over the
concatenated lines of the input files: tsv parsing, the empty / too-long /
reserved-marker skips, the self-test sampler offer, and the selector with
its early-stop jump out of both loops. -/
def loadLoop (ts : TrainerSpec) (rngSel rngTest : Nat → Nat) :
    List Text → SelState → Reservoir Text → Except Err (SelState × Reservoir Text)
  | [], sel, tst => .ok (sel, tst)
  | line :: rest, sel, tst =>
    match (if ts.input_format = "tsv" then parseTsvLine line else .ok (line, 1)) with
    | .error e => .error e
    | .ok s =>
      if s.1 = [] then loadLoop ts rngSel rngTest rest sel tst
      else if ts.max_sentence_length < (s.1.length : Int) then
        loadLoop ts rngSel rngTest rest sel tst
      else if kUNKChar ∈ s.1 then loadLoop ts rngSel rngTest rest sel tst
      else
        match selAdd ts rngSel sel s with
        | (sel2, true) => loadLoop ts rngSel rngTest rest sel2 (resAdd rngTest tst s.1)
        | (sel2, false) => .ok (sel2, resAdd rngTest tst s.1)

/-- The swap-with-last removal scan (lines 351-359), verbatim: walk
forward, fail on a raw space, and when the text is empty swap the entry
with the last element and shrink — the index still advances, so the
swapped-in element is never re-examined.  The fuel is a
structural-recursion device; the initial length always suffices because
the index strictly increases while the length never grows, and on fuel
exhaustion the scan condition `i < size` has just become false. -/
def removeEmptiesAux : Nat → Nat → List Sentence → Except Err (List Sentence)
  | 0, _, l => .ok l
  | fuel + 1, i, l =>
    if h : i < l.length then
      if spaceChar ∈ (l.get ⟨i, h⟩).1 then .error .spaceAfterNormalize
      else if (l.get ⟨i, h⟩).1 = [] then
        removeEmptiesAux fuel (i + 1)
          (((l.set i (l.get ⟨l.length - 1, by omega⟩)).set (l.length - 1)
            (l.get ⟨i, h⟩)).dropLast)
      else removeEmptiesAux fuel (i + 1) l
    else .ok l

/-- The removal loop entry point. -/
def removeEmpties (l : List Sentence) : Except Err (List Sentence) :=
  removeEmptiesAux l.length 0 l

/-- `chars_count` lookup. -/
def cfind : List (Nat × Int) → Nat → Option Int
  | [], _ => none
  | p :: m, c => if p.1 = c then some p.2 else cfind m c

/-- `chars_count[c] += f` (insertion order fixes the model's map order;
the selection loop sorts before consuming it, so the order is
immaterial). -/
def cbump : List (Nat × Int) → Nat → Int → List (Nat × Int)
  | [], c, f => [(c, f)]
  | p :: m, c, f => if p.1 = c then (p.1, p.2 + f) :: m else p :: cbump m c f

/-- The per-text part of the counting pass (lines 365-382): skip invalid
code points and NUL, fail on a raw space (in the code-point model a space
code point is a space in the string, which is exactly what the `CHECK`
rejects), count everything else weighted by the frequency. -/
def countCharsInText (f : Int) : List Nat → List (Nat × Int) → Int →
    Except Err (List (Nat × Int) × Int)
  | [], m, total => .ok (m, total)
  | c :: rest, m, total =>
    if ¬ isValidCodepoint c = true then countCharsInText f rest m total
    else if c = 0 then countCharsInText f rest m total
    else if c = spaceChar then .error .spaceInCount
    else countCharsInText f rest (cbump m c f) (total + f)

/-- The counting pass over all sentences. -/
def countChars : List Sentence → List (Nat × Int) → Int →
    Except Err (List (Nat × Int) × Int)
  | [], m, total => .ok (m, total)
  | s :: rest, m, total =>
    match countCharsInText s.2 s.1 m total with
    | .error e => .error e
    | .ok acc2 => countChars rest acc2.1 acc2.2

/-- Rare-character replacement (lines 408-420): every code point outside
the required set becomes the unknown-character marker. -/
def replaceRare (req : List (Nat × Int)) (l : List Sentence) : List Sentence :=
  l.map fun s => (s.1.map fun c => if (cfind req c).isSome then c else kUNKChar, s.2)

/-- What `LoadSentences` leaves behind: the preprocessed corpus, the
required character set, and the self-test samples. -/
structure LoadResult where
  sentences : List Sentence
  required_chars : List (Nat × Int)
  self_test_samples : List Text
deriving DecidableEq, Repr

/-- `TrainerInterface::LoadSentences` (lines 249-438), with the I/O layer
flattened to the concatenated list of input lines and the external
normalizer, meta-piece replacer, and random streams passed as functions.
Stages in order: format check, reading loop, empty-corpus check, the
parallel normalization pass (workers own disjoint index sets, so the pass
is a per-element map), the swap-with-last removal scan, character
counting, required-character selection over the sorted counts, the
unknown-marker membership check, rare-character replacement, and the
final vocabulary-size check for statistical model types. -/
def loadSentences (ts : TrainerSpec) (meta : MetaMap)
    (normalize metaReplace : Text → Text) (rngSel rngTest : Nat → Nat)
    (lines : List Text) : Except Err LoadResult :=
  if ¬ (ts.input_format = "" ∨ ts.input_format = "text" ∨ ts.input_format = "tsv") then
    .error .badFormat
  else
    match loadLoop ts rngSel rngTest lines ⟨[], 0⟩ ⟨[], 0, ts.self_test_sample_size⟩ with
    | .error e => .error e
    | .ok (sel, tst) =>
      if sel.sentences = [] then .error .emptyCorpus
      else
        match removeEmpties (sel.sentences.map fun s => (metaReplace (normalize s.1), s.2)) with
        | .error e => .error e
        | .ok kept =>
          match countChars kept [] 0 with
          | .error e => .error e
          | .ok acc =>
            match requiredCharsLoop ts.use_all_vocab ts.character_coverage acc.2
                (sortedChars acc.1) 0 [] with
            | .error e => .error e
            | .ok req =>
              if (cfind req kUNKChar).isSome then .error .unkInRequired
              else if (ts.model_type ≠ .WORD ∧ ts.model_type ≠ .CHAR) ∧
                  ts.vocab_size < ((req.length + meta.length : Nat) : Int) then
                .error .vocabTooSmall
              else .ok ⟨replaceRare req kept, req, tst.items⟩

theorem loadLoop_all_too_long (ts : TrainerSpec) (rngSel rngTest : Nat → Nat)
    (hfmt : ¬ ts.input_format = "tsv") :
    ∀ (lines : List Text) (sel : SelState) (tst : Reservoir Text),
      (∀ l ∈ lines, ts.max_sentence_length < (l.length : Int)) →
      loadLoop ts rngSel rngTest lines sel tst = .ok (sel, tst) := by
  intro lines
  induction lines with
  | nil =>
    intro sel tst _
    rfl
  | cons line rest ih =>
    intro sel tst hlong
    simp only [loadLoop, if_neg hfmt]
    by_cases hemp : line = []
    · rw [if_pos hemp]
      exact ih sel tst fun l hl => hlong l (List.mem_cons_of_mem _ hl)
    · rw [if_neg hemp, if_pos (hlong line (List.mem_cons_self _ _))]
      exact ih sel tst fun l hl => hlong l (List.mem_cons_of_mem _ hl)

/-- Claim C7 (amended): a corpus in which every line exceeds the
sentence-length cap leaves no sentences after loading, and `LoadSentences`
then fails at the empty-corpus check that precedes the normalization pass
— not with the vocabulary-too-small check of the coverage stage. -/
theorem too_long_corpus_empty_check (ts : TrainerSpec) (meta : MetaMap)
    (normalize metaReplace : Text → Text) (rngSel rngTest : Nat → Nat)
    (lines : List Text)
    (hfmt : ts.input_format = "" ∨ ts.input_format = "text")
    (hlong : ∀ l ∈ lines, ts.max_sentence_length < (l.length : Int)) :
    loadSentences ts meta normalize metaReplace rngSel rngTest lines =
      .error .emptyCorpus := by
  have hnt : ¬ ts.input_format = "tsv" := by
    rcases hfmt with h | h <;> simp [h]
  have hload := loadLoop_all_too_long ts rngSel rngTest hnt lines ⟨[], 0⟩
    ⟨[], 0, ts.self_test_sample_size⟩ hlong
  unfold loadSentences
  rw [if_neg (not_not_intro (by tauto))]
  rw [hload]
  rfl

/-- A spec with a tight sentence-length cap for the C7 runs. -/
def c7spec : TrainerSpec := { baseSpec with max_sentence_length := 10 }

/-- One corpus line of eleven characters — longer than the cap of ten. -/
def c7lines : List Text := [List.replicate 11 0x61]

/-- Claim C7 (counterexample): with every line over the cap, the load
fails at the empty-corpus check — whose error is not the
vocabulary-too-small error the claim names. -/
theorem too_long_corpus_error_counterexample :
    loadSentences c7spec c1meta (fun t => t) (fun t => t) (fun _ => 0) (fun _ => 0)
        c7lines = .error .emptyCorpus ∧
    Err.emptyCorpus ≠ Err.vocabTooSmall :=
  ⟨by decide, by decide⟩

/-- Witness for `too_long_corpus_empty_check` at the concrete `c7spec`. -/
theorem too_long_corpus_empty_check_witness :
    loadSentences c7spec c1meta (fun t => t) (fun t => t) (fun _ => 0) (fun _ => 0)
        c7lines = .error .emptyCorpus :=
  too_long_corpus_empty_check c7spec c1meta (fun t => t) (fun t => t)
    (fun _ => 0) (fun _ => 0) c7lines (Or.inl rfl) (by decide)

/-- A CHAR-model spec with `use_all_vocab`, under which the C2 run below
reaches the end of `LoadSentences`. -/
def c2spec : TrainerSpec := { baseSpec with model_type := .CHAR, use_all_vocab := true }

/-- A normalizer that keeps "a" and sends every other sentence to the
empty string. -/
def c2norm : Text → Text := fun s => if s = [0x61] then s else []

/-- Three corpus lines; two of them normalize to empty. -/
def c2lines : List Text := [[0x61], [0x62], [0x63]]

/-- Claim C2 (code bug, failing input): on `c2lines` with `c2norm`, the
swap-with-last removal scan of the normalizer stage skips the element
swapped into the current position, and `LoadSentences` succeeds with an
empty sentence still in the corpus — contradicting the documented
post-condition that empties are removed. -/
theorem normalizer_stage_keeps_empty_sentence :
    (loadSentences c2spec c1meta c2norm (fun t => t) (fun _ => 0) (fun _ => 0)
        c2lines).map LoadResult.sentences = .ok [([0x61], 1), ([], 1)] ∧
    (([] : Text), (1 : Int)) ∈ [(([0x61] : Text), (1 : Int)), ([], 1)] :=
  ⟨by decide, by decide⟩

theorem selAdd_no_limit (ts : TrainerSpec) (rng : Nat → Nat) (st : SelState)
    (s : Sentence) (hnl : ts.input_sentence_size ≤ 0) :
    selAdd ts rng st s = (⟨st.sentences ++ [s], st.seen⟩, true) := by
  unfold selAdd
  rw [if_pos hnl]

theorem loadLoop_tsv_error (ts : TrainerSpec) (rngSel rngTest : Nat → Nat)
    (hfmt : ts.input_format = "tsv") (hnl : ts.input_sentence_size ≤ 0) :
    ∀ (good : List Text) (bad : Text) (rest : List Text) (e : Err),
      (∀ l ∈ good, (parseTsvLine l).isOk = true) → parseTsvLine bad = .error e →
      ∀ (sel : SelState) (tst : Reservoir Text),
        loadLoop ts rngSel rngTest (good ++ bad :: rest) sel tst = .error e := by
  intro good
  induction good with
  | nil =>
    intro bad rest e _ hbad sel tst
    simp only [List.nil_append, loadLoop, if_pos hfmt, hbad]
  | cons l good ih =>
    intro bad rest e hgood hbad sel tst
    have hl : (parseTsvLine l).isOk = true := hgood l (List.mem_cons_self _ _)
    cases hp : parseTsvLine l with
    | error e2 =>
      rw [hp] at hl
      exact absurd hl (by simp [Except.isOk, Except.toBool])
    | ok s =>
      have hgood2 : ∀ l2 ∈ good, (parseTsvLine l2).isOk = true :=
        fun l2 hl2 => hgood l2 (List.mem_cons_of_mem _ hl2)
      simp only [List.cons_append, loadLoop, if_pos hfmt, hp]
      by_cases hemp : s.1 = []
      · rw [if_pos hemp]
        exact ih bad rest e hgood2 hbad sel tst
      · rw [if_neg hemp]
        by_cases hlen : ts.max_sentence_length < (s.1.length : Int)
        · rw [if_pos hlen]
          exact ih bad rest e hgood2 hbad sel tst
        · rw [if_neg hlen]
          by_cases hunk : kUNKChar ∈ s.1
          · rw [if_pos hunk]
            exact ih bad rest e hgood2 hbad sel tst
          · rw [if_neg hunk, selAdd_no_limit ts rngSel sel s hnl]
            exact ih bad rest e hgood2 hbad _ _

/-- Claim C9: (i) a line read under tsv format yields a candidate exactly
when it splits into exactly two tab-separated fields whose second parses
(via `atoll`) to an integer ≥ 1, the candidate being the first field with
that integer as its frequency; (ii) a line for which this fails, reached
by the reading loop (no sentence limit stops it first), fails the whole
load with that parse error. -/
theorem tsv_line_parsing :
    (∀ (line w : Text) (f : Int),
      parseTsvLine line = .ok (w, f) ↔
        ∃ s2, splitTab line = [w, s2] ∧ atoll s2 = f ∧ 1 ≤ f) ∧
    (∀ (ts : TrainerSpec) (meta : MetaMap) (normalize metaReplace : Text → Text)
        (rngSel rngTest : Nat → Nat) (good : List Text) (bad : Text)
        (rest : List Text) (e : Err),
      ts.input_format = "tsv" → ts.input_sentence_size ≤ 0 →
      (∀ l ∈ good, (parseTsvLine l).isOk = true) → parseTsvLine bad = .error e →
      loadSentences ts meta normalize metaReplace rngSel rngTest
        (good ++ bad :: rest) = .error e) := by
  constructor
  · intro line w f
    cases hs : splitTab line with
    | nil =>
      have hred : parseTsvLine line = .error .tsvFieldCount := by
        unfold parseTsvLine
        rw [hs]
      rw [hred]
      simp
    | cons a t =>
      cases t with
      | nil =>
        have hred : parseTsvLine line = .error .tsvFieldCount := by
          unfold parseTsvLine
          rw [hs]
        rw [hred]
        simp
      | cons b t2 =>
        cases t2 with
        | nil =>
          have hred : parseTsvLine line =
              if 1 ≤ atoll b then .ok (a, atoll b) else .error .tsvBadFreq := by
            unfold parseTsvLine
            rw [hs]
          rw [hred]
          by_cases hge : 1 ≤ atoll b
          · rw [if_pos hge]
            constructor
            · intro h
              injection h with hh
              injection hh with h1 h2
              subst h1
              subst h2
              exact ⟨b, rfl, rfl, hge⟩
            · rintro ⟨s2, heq, hat, hf⟩
              injection heq with h1 heq2
              injection heq2 with h2 _
              subst h1
              subst h2
              rw [hat]
          · rw [if_neg hge]
            constructor
            · intro h
              exact absurd h (by simp)
            · rintro ⟨s2, heq, hat, hf⟩
              injection heq with h1 heq2
              injection heq2 with h2 _
              subst h2
              rw [hat] at hge
              exact absurd hf hge
        | cons c t3 =>
          have hred : parseTsvLine line = .error .tsvFieldCount := by
            unfold parseTsvLine
            rw [hs]
          rw [hred]
          simp
  · intro ts meta normalize metaReplace rngSel rngTest good bad rest e hfmt hnl hgood hbad
    unfold loadSentences
    rw [if_neg (not_not_intro (by tauto))]
    rw [loadLoop_tsv_error ts rngSel rngTest hfmt hnl good bad rest e hgood hbad _ _]

/-- The tsv line "a<TAB>3". -/
def c9line : Text := [0x61, 0x09, 0x33]

/-- A tsv-format configuration. -/
def c9spec : TrainerSpec := { baseSpec with input_format := "tsv" }

/-- Witness for `tsv_line_parsing`: the concrete line "a<TAB>3", and the
whole-load failure for a one-field line after it. -/
theorem tsv_line_parsing_witness :
    (parseTsvLine c9line = .ok ([0x61], 3) ↔
      ∃ s2, splitTab c9line = [[0x61], s2] ∧ atoll s2 = 3 ∧ 1 ≤ (3 : Int)) ∧
    loadSentences c9spec c1meta (fun t => t) (fun t => t) (fun _ => 0) (fun _ => 0)
      ([c9line] ++ [0x61] :: []) = .error .tsvFieldCount :=
  ⟨tsv_line_parsing.1 c9line [0x61] 3,
    tsv_line_parsing.2 c9spec c1meta (fun t => t) (fun t => t) (fun _ => 0) (fun _ => 0)
      [c9line] [0x61] [] .tsvFieldCount rfl (by decide) (by decide) (by decide)⟩

/-! ## rcpp_wordpiece.cpp: `wordpiece_encode_as_subwords` -/

/-- A C++ `std::string` at byte granularity (the wordpiece tokenizer
slices bytes, so this section models bytes, not code points). -/
abbrev BStr := List Nat

/-- `x.substr(pos, cnt)` (the count is clamped at the end of the string;
`pos` never exceeds the size at the call sites). -/
def cppSubstr (x : BStr) (pos cnt : Nat) : BStr := (x.drop pos).take cnt

/-- The inner scan of the tokenizer (rcpp_wordpiece.cpp lines 19-30): try
the substring from `start` through `e` inclusive, prefixed with the `##`
continuation marker when `start > 0`, shortening from the right until a
vocabulary hit; returns the match and the `end` value at the break, if
any.  `% 2 ^ 32` reproduces the `unsigned int` arithmetic of
`end - start + 1`, which wraps to 0 when `end = 2^32 - 1` and
`start = 0`. -/
def wpInner (x : BStr) (vocab : List BStr) (start : Nat) : Nat → Option (BStr × Nat)
  | 0 => none
  | e + 1 =>
    if start < e + 1 then
      let sub0 := cppSubstr x start ((e + 1 - start + 1) % 2 ^ 32)
      let sub := if 0 < start then 0x23 :: 0x23 :: sub0 else sub0
      if sub ∈ vocab then some (sub, e + 1) else wpInner x vocab start e
    else none

/-- The outer loop (lines 15-37): one iteration per token.  The fuel is a
structural-recursion device; `wordpiece_encode_as_subwords` supplies
`2 ^ 32 + 1`, which exceeds the iteration count of every terminating
execution (`start` strictly increases through `[0, 2^32)` except in the
empty-match state, which ends the loop), so `none` is produced exactly
when the C++ loop runs forever.  An empty `cur_substr` after the inner
scan — no match, or a match of the empty string itself — appends the
unknown token and breaks. -/
def wpOuter (x : BStr) (vocab : List BStr) (unk : BStr) (len : Nat) :
    Nat → Nat → List BStr → Option (List BStr)
  | 0, _, _ => none
  | fuel + 1, start, acc =>
    if start < len then
      match wpInner x vocab start len with
      | none => some (acc ++ [unk])
      | some (sub, e) =>
        if sub = [] then some (acc ++ [unk])
        else wpOuter x vocab unk len fuel ((e + 1) % 2 ^ 32) (acc ++ [sub])
    else some acc

/-- `wordpiece_encode_as_subwords` (rcpp_wordpiece.cpp lines 5-47).
`unsigned int len = x.length() - 1` is computed in `size_t` and truncated
to `unsigned int`, so the empty string yields `len = 2^32 - 1`; an empty
`sub_tokens` at the end is replaced by the single unknown token. -/
def wordpiece_encode_as_subwords (x : BStr) (vocab : List BStr) (unk : BStr)
    (max_input_chars_per_word : Nat) : Option (List BStr) :=
  let len := (x.length + (2 ^ 64 - 1)) % 2 ^ 64 % 2 ^ 32
  if max_input_chars_per_word % 2 ^ 32 < len then some [unk]
  else
    match wpOuter x vocab unk len (2 ^ 32 + 1) 0 [] with
    | none => none
    | some toks => some (if toks = [] then [unk] else toks)

theorem wpInner_empty_not_mem (vocab : List BStr) (hnm : ([] : BStr) ∉ vocab) :
    ∀ e, wpInner [] vocab 0 e = none := by
  intro e
  induction e with
  | zero => rfl
  | succ e ih =>
    unfold wpInner
    rw [if_pos (Nat.succ_pos e)]
    simp only [cppSubstr, List.drop_nil, List.take_nil, Nat.lt_irrefl, if_false]
    rw [if_neg hnm]
    exact ih

theorem wpInner_empty_mem (vocab : List BStr) (hm : ([] : BStr) ∈ vocab) (e : Nat) :
    wpInner [] vocab 0 (e + 1) = some ([], e + 1) := by
  unfold wpInner
  rw [if_pos (Nat.succ_pos e)]
  simp only [cppSubstr, List.drop_nil, List.take_nil, Nat.lt_irrefl, if_false]
  rw [if_pos hm]

/-- Claim C10: for every vocabulary, unknown token and
`max_input_chars_per_word`, the tokenizer returns exactly one token — the
unknown token — on inputs of length 0 or 1, even when the one-character
input itself is in the vocabulary: the scan bound is the length minus one
(`start < len` with `len = x.length() - 1`), so a single character is
never tried, and on the empty input the unsigned bound underflows. -/
theorem wordpiece_short_input_unk (x : BStr) (vocab : List BStr) (unk : BStr)
    (maxw : Nat) (hx : x.length ≤ 1) :
    wordpiece_encode_as_subwords x vocab unk maxw = some [unk] := by
  rcases x with _ | ⟨c, _ | ⟨d, t⟩⟩
  · simp only [wordpiece_encode_as_subwords, List.length_nil]
    have hlen : (0 + (2 ^ 64 - 1)) % 2 ^ 64 % 2 ^ 32 = 4294967295 := by norm_num
    rw [hlen]
    by_cases hm : maxw % 2 ^ 32 < 4294967295
    · rw [if_pos hm]
    · rw [if_neg hm]
      have hfuel : (2 ^ 32 + 1 : Nat) = 4294967296 + 1 := by norm_num
      rw [hfuel]
      unfold wpOuter
      rw [if_pos (by norm_num : (0 : Nat) < 4294967295)]
      by_cases hv : ([] : BStr) ∈ vocab
      · have h1 : (4294967295 : Nat) = 4294967294 + 1 := by norm_num
        rw [h1, wpInner_empty_mem vocab hv 4294967294]
        rfl
      · rw [wpInner_empty_not_mem vocab hv 4294967295]
        rfl
  · unfold wordpiece_encode_as_subwords
    have hlen : (([c] : BStr).length + (2 ^ 64 - 1)) % 2 ^ 64 % 2 ^ 32 = 0 := by
      norm_num
    rw [hlen]
    rw [if_neg (Nat.not_lt_zero _)]
    have hfuel : (2 ^ 32 + 1 : Nat) = 4294967296 + 1 := by norm_num
    rw [hfuel]
    unfold wpOuter
    rw [if_neg (Nat.not_lt_zero _)]
    rfl
  · exfalso
    simp at hx

/-- Witness for `wordpiece_short_input_unk`: the one-character input "a"
whose character is itself in the vocabulary still yields the unknown
token. -/
theorem wordpiece_short_input_unk_witness :
    wordpiece_encode_as_subwords [0x61] [[0x61]] [0x75] 100 = some [[0x75]] :=
  wordpiece_short_input_unk [0x61] [[0x61]] [0x75] 100 (by decide)

end SP
